import Mathlib

/-!
Shallow embedding of the brozeph/chess Go engine (boards.go, pieces.go,
sides.go, neighbors.go, piece_validator.go, the board validator, the game
container, game_validator.go and algebraic.go), together with proofs about
the claims of the specification.

Modelling conventions:
* A Go `*Square` is represented by its board index `(rank-1)*8 + file`,
  a `Nat` below 64; a nullable square pointer is `Option Nat`.
* A Go `*Piece` is a record value; the field `pid` models pointer identity
  (pieces allocated at distinct times receive distinct `pid`s), which the
  source uses for the `LastMovedPiece == adj.Piece` comparison.
* The board's square slice is a `List (Option Piece)` of length 64 mapping
  index to occupant; mutation becomes `List.set`.
* `md5` + base64 in `getHashCode` is modelled as the identity encoding of
  the canonical pre-digest string (the source compares digests for
  equality only, and the digest step is injective on the strings that
  occur).
-/

namespace Chess

set_option maxRecDepth 40000

/-- Piece kinds, mirroring the Go `pieceType` enumeration. -/
inductive PieceKind where
  | bishop
  | king
  | knight
  | pawn
  | queen
  | rook
deriving DecidableEq

/-- The two sides, mirroring the Go `Side` type. -/
inductive Side where
  | white
  | black
deriving DecidableEq

/-- `Side.Opponent` from sides.go. -/
def Side.opponent : Side → Side
  | .white => .black
  | .black => .white

/-- A chess piece (pieces.go `Piece`).  `pid` models Go pointer identity. -/
structure Piece where
  kind : PieceKind
  side : Side
  moveCount : Nat
  pid : Nat
deriving DecidableEq

/-- The `Notation` field assigned by the `newPiece` factory. -/
def PieceKind.letterStr : PieceKind → String
  | .bishop => "B"
  | .king => "K"
  | .knight => "N"
  | .pawn => ""
  | .queen => "Q"
  | .rook => "R"

/-- `newPiece` from pieces.go, with an explicit `pid` for pointer identity. -/
def newPiece (pt : PieceKind) (sd : Side) (pid : Nat) : Piece :=
  { kind := pt, side := sd, moveCount := 0, pid := pid }

/-- The FEN character of a piece (pieces.go `toFEN`): lowercase letter,
uppercased for White. -/
def pieceFEN (p : Piece) : String :=
  match p.side, p.kind with
  | .white, .pawn => "P"
  | .white, .knight => "N"
  | .white, .bishop => "B"
  | .white, .rook => "R"
  | .white, .queen => "Q"
  | .white, .king => "K"
  | .black, .pawn => "p"
  | .black, .knight => "n"
  | .black, .bishop => "b"
  | .black, .rook => "r"
  | .black, .queen => "q"
  | .black, .king => "k"

/-- `strings.Split` with a single-character separator (the only form the
source uses: spaces between FEN fields, slashes between rank rows). -/
def splitOnChar (sep : Char) (s : List Char) : List String :=
  let parts := s.foldr
    (fun c acc =>
      match acc with
      | [] => [[c]]
      | hd :: tl => if c = sep then [] :: hd :: tl else (c :: hd) :: tl)
    [[]]
  parts.map String.mk

/-- `strings.ReplaceAll` with a single-character pattern and an empty or
single-character replacement (the only forms the source uses). -/
def replaceChar (s : String) (pat : Char) (rep : Option Char) : String :=
  String.mk (s.data.filterMap fun c => if c = pat then rep else some c)

/-- The board (boards.go `Board`): 64 cells indexed by `(rank-1)*8 + file`,
plus the pid of the last moved piece (`LastMovedPiece`). -/
structure Board where
  squares : List (Option Piece)
  lastMoved : Option Nat
deriving DecidableEq

/-- File of a square index, 0 = file a … 7 = file h. -/
def fileOf (i : Nat) : Nat := i % 8

/-- Rank of a square index, 1 … 8. -/
def rankOf (i : Nat) : Nat := i / 8 + 1

/-- Index of the square at file `f` (0-based) and rank `r` (1-based). -/
def sqIdx (f r : Nat) : Nat := (r - 1) * 8 + f

/-- Occupant of square `i` (reading `b.Squares[i].Piece`). -/
def cellAt (b : Board) (i : Nat) : Option Piece := b.squares.getD i none

/-- `Board.GetSquare` from boards.go: the index for in-range coordinates,
`none` otherwise.  `f` is 0-based, `r` is 1-based. -/
def getSquare (b : Board) (f : Int) (r : Int) : Option Nat :=
  if r < 1 ∨ r > 8 ∨ f < 0 ∨ f > 7 then none
  else
    let idx := (r - 1) * 8 + f
    if 0 ≤ idx ∧ idx < (b.squares.length : Int) then some idx.toNat else none

/-- Square name such as `"e3"` (the Go `Square.name`). -/
def sqName (i : Nat) : String :=
  String.mk [Char.ofNat (97 + fileOf i)] ++ toString (rankOf i)

/-- Neighbor directions (neighbors.go). -/
inductive Nb where
  | above
  | aboveLeft
  | aboveRight
  | below
  | belowLeft
  | belowRight
  | left
  | right
  | kAboveLeft
  | kAboveRight
  | kBelowLeft
  | kBelowRight
  | kLeftAbove
  | kLeftBelow
  | kRightAbove
  | kRightBelow
deriving DecidableEq

/-- The numeric index delta of each direction (neighbors.go constants). -/
def Nb.delta : Nb → Int
  | .above => 8
  | .aboveLeft => 7
  | .aboveRight => 9
  | .below => -8
  | .belowLeft => -9
  | .belowRight => -7
  | .left => -1
  | .right => 1
  | .kAboveLeft => 15
  | .kAboveRight => 17
  | .kBelowLeft => -17
  | .kBelowRight => -15
  | .kLeftAbove => 6
  | .kLeftBelow => -10
  | .kRightAbove => 10
  | .kRightBelow => -6

/-- `Board.getNeighborSquare` from boards.go: edge clipping on files `a`,
`b`, `g`, `h` and ranks 1, 8, then a bounds-checked index offset. -/
def getNeighborSquare (b : Board) (i : Nat) (n : Nb) : Option Nat :=
  if fileOf i = 0 ∧ (n = .aboveLeft ∨ n = .belowLeft ∨ n = .left) then none
  else if fileOf i = 1 ∧ (n = .kLeftAbove ∨ n = .kLeftBelow) then none
  else if fileOf i = 6 ∧ (n = .kRightAbove ∨ n = .kRightBelow) then none
  else if fileOf i = 7 ∧ (n = .aboveRight ∨ n = .belowRight ∨ n = .right) then none
  else if rankOf i = 1 ∧ (n = .below ∨ n = .belowLeft ∨ n = .belowRight ∨
      n = .kLeftBelow ∨ n = .kRightBelow ∨ n = .kBelowLeft ∨ n = .kBelowRight) then none
  else if rankOf i = 8 ∧ (n = .above ∨ n = .aboveLeft ∨ n = .aboveRight ∨
      n = .kLeftAbove ∨ n = .kRightAbove ∨ n = .kAboveLeft ∨ n = .kAboveRight) then none
  else
    let t : Int := (i : Int) + n.delta
    if 0 ≤ t ∧ t < (b.squares.length : Int) then some t.toNat else none

/-- `Board.getSquares`: the current side's occupied square indices in
board order. -/
def getSquares (b : Board) (sd : Side) : List Nat :=
  (List.range b.squares.length).filter fun i =>
    match cellAt b i with
    | some p => p.side = sd
    | none => false

/-- `Board.getSquareByName`: parse a two-character square name. -/
def getSquareByName (b : Board) (nm : String) : Option Nat :=
  match nm.data with
  | [c0, c1] => getSquare b ((c0.toNat : Int) - 97) ((c1.toNat : Int) - 48)
  | _ => none

/-! ### The per-piece move generator (piece_validator.go) -/

/-- One sliding direction of `findMoveOptions`: walk `fuel` squares,
stopping at the first occupied square, which is included only when it is
an enemy piece and the mover is not a pawn. -/
def slideLoop (b : Board) (pc : Piece) (dir : Nb) : Option Nat → Nat → List Nat
  | none, _ => []
  | some _, 0 => []
  | some cur, fuel + 1 =>
    match cellAt b cur with
    | some q =>
      if pc.kind = .pawn ∨ q.side = pc.side then []
      else [cur]
    | none => cur :: slideLoop b pc dir (getNeighborSquare b cur dir) fuel

/-- All squares reached from `o` in direction `dir` with at most `reps`
steps. -/
def dirMoves (b : Board) (pc : Piece) (o : Nat) (dir : Nb) (reps : Nat) : List Nat :=
  slideLoop b pc dir (getNeighborSquare b o dir) reps

/-- The forward direction of a side (up-rank for White). -/
def forwardDir (sd : Side) : Nb := if sd = .white then .above else .below

/-- The backward direction of a side. -/
def backwardDir (sd : Side) : Nb := if sd = .white then .below else .above

/-- The flag/repeat configuration of `CreatePieceValidator`, folded into the
direction list of `pieceValidator.Check` (forward, backward, horizontal,
diagonal, in source order). -/
def baseDests (b : Board) (pc : Piece) (o : Nat) : List Nat :=
  let cfg : Bool × Bool × Bool × Bool × Nat :=
    match pc.kind with
    | .bishop => (false, true, false, false, 8)
    | .king => (true, true, true, true, 1)
    | .knight => (false, false, false, false, 1)
    | .pawn => (false, false, true, false, 1)
    | .queen => (true, true, true, true, 8)
    | .rook => (true, false, true, true, 8)
  let (bw, dg, fw, hz, reps) := cfg
  (if fw then dirMoves b pc o (forwardDir pc.side) reps else []) ++
  (if bw then dirMoves b pc o (backwardDir pc.side) reps else []) ++
  (if hz then dirMoves b pc o .left reps ++ dirMoves b pc o .right reps else []) ++
  (if dg then
      dirMoves b pc o .aboveLeft reps ++ dirMoves b pc o .aboveRight reps ++
      dirMoves b pc o .belowLeft reps ++ dirMoves b pc o .belowRight reps
    else [])

/-- `knightSpecial`: the eight L-jump candidates built from the four
diagonal neighbors, kept when empty or enemy-occupied. -/
def knightSpecial (b : Board) (pc : Piece) (o : Nat) : List Nat :=
  let aL := getNeighborSquare b o .aboveLeft
  let aR := getNeighborSquare b o .aboveRight
  let bL := getNeighborSquare b o .belowLeft
  let bR := getNeighborSquare b o .belowRight
  let two : Option Nat → Nb → Nb → List (Option Nat) := fun base d1 d2 =>
    match base with
    | none => []
    | some s => [getNeighborSquare b s d1, getNeighborSquare b s d2]
  let cndts :=
    two aL .above .left ++ two aR .above .right ++
    two bL .below .left ++ two bR .below .right
  cndts.filterMap fun osq =>
    match osq with
    | none => none
    | some sq =>
      match cellAt b sq with
      | none => some sq
      | some q => if q.side ≠ pc.side then some sq else none

/-- The diagonal-capture sublist of `pawnSpecial` (its local `caps`): the
two forward-diagonal neighbors that hold an enemy piece. -/
def pawnCaps (b : Board) (pc : Piece) (o : Nat) : List Nat :=
  let dL := getNeighborSquare b o (if pc.side = .white then .aboveLeft else .belowLeft)
  let dR := getNeighborSquare b o (if pc.side = .white then .aboveRight else .belowRight)
  [dL, dR].filterMap fun osq =>
    match osq with
    | none => none
    | some sq =>
      match cellAt b sq with
      | some q => if q.side ≠ pc.side then some sq else none
      | none => none

/-- The initial two-square-push extension of `pawnSpecial` (its local
`ds2`, guarded by `destinationSquares[0]`): append the square two ahead
when the pawn has not moved, the head of the accumulated list is an empty
square on rank 2 or 7, and the far square is empty. -/
def pawnDouble (b : Board) (pc : Piece) (o : Nat) (ds1 : List Nat) : List Nat :=
  if pc.moveCount = 0 ∧ ds1.length > 0 then
    match ds1.head? with
    | some ff =>
      if cellAt b ff = none ∧ (rankOf o = 7 ∨ rankOf o = 2) then
        match getNeighborSquare b ff (forwardDir pc.side) with
        | some sf => if cellAt b sf = none then ds1 ++ [sf] else ds1
        | none => ds1
      else ds1
    | none => ds1
  else ds1

/-- The en-passant sublist of `pawnSpecial` (its local `eps`): for each
horizontally adjacent enemy pawn that has `MoveCount` 1 and is the board's
`LastMovedPiece`, the square behind it. -/
def pawnEps (b : Board) (pc : Piece) (o : Nat) : List Nat :=
  [getNeighborSquare b o .left, getNeighborSquare b o .right].filterMap fun adj =>
    match adj with
    | none => none
    | some adjSq =>
      match cellAt b adjSq with
      | none => none
      | some ap =>
        if ap.kind = .pawn ∧ ap.side ≠ pc.side ∧ ap.moveCount = 1 ∧
            b.lastMoved = some ap.pid then
          getNeighborSquare b adjSq
            (if ap.side = .black then .above else .below)
        else none

/-- `pawnSpecial`: diagonal captures, the initial two-square push (guarded
by `destinationSquares[0]`), and en passant.  `ds` is the forward-move list
already accumulated by `Check`. -/
def pawnSpecial (b : Board) (pc : Piece) (o : Nat) (ds : List Nat) : List Nat :=
  let caps := pawnCaps b pc o
  let ds1 := ds ++ caps
  let ds2 := pawnDouble b pc o ds1
  let rnk : Nat := if pc.side = .black then 4 else 5
  if rankOf o ≠ rnk then ds2
  else ds2 ++ pawnEps b pc o

/-- `pieceValidator.Check`: pseudo-legal destinations of the piece on
`origin`, `none` when the origin is empty (the Go error case; every call
site passes the origin piece's own type, so the type check never fails). -/
def pieceDests (b : Board) (origin : Nat) : Option (List Nat) :=
  match cellAt b origin with
  | none => none
  | some pc =>
    let base := baseDests b pc origin
    match pc.kind with
    | .knight => some (base ++ knightSpecial b pc origin)
    | .pawn => some (pawnSpecial b pc origin base)
    | _ => some base

/-! ### Board mutation with reversible moves (boards.go `Board.Move`) -/

/-- The `MoveEvent` record from events.go.  Square pointers are indices,
the moved piece is stored with its value at event-creation time (its live
`MoveCount` is recoverable as `prevMoveCount`, or `prevMoveCount + 1` after
a committed move). -/
structure MoveEvent where
  algebraic : String
  capturedPiece : Option Piece
  castle : Bool
  enPassant : Bool
  piece : Piece
  postSquare : Nat
  prevSquare : Nat
  promotion : Bool
  rookSource : Option Nat
  rookDestination : Option Nat
  enPassantCaptureSquare : Option Nat
  hashCode : String
  prevMoveCount : Nat
  simulate : Bool
  undone : Bool
deriving DecidableEq

/-- `Board.Move`: transfer the source piece, infer castle and en passant,
and (for committed moves) bump the mover's `MoveCount` and set
`LastMovedPiece`.  Returns `none` exactly when the Go code returns an
error (out-of-range square reference or empty source).  The returned event
is what the Go undo closure captures. -/
def boardMove (b : Board) (src dst : Nat) (sim : Bool) (san : String) :
    Option (Board × MoveEvent) :=
  if src ≥ b.squares.length ∨ dst ≥ b.squares.length then none
  else
    match cellAt b src with
    | none => none
    | some p =>
      let captured0 := cellAt b dst
      let pmc := p.moveCount
      let sq1 := (b.squares.set dst (some p)).set src none
      let castle0 : Bool :=
        p.kind = .king ∧ pmc = 0 ∧ (fileOf dst = 6 ∨ fileOf dst = 2)
      let enp : Bool := p.kind = .pawn ∧ captured0 = none ∧ fileOf dst ≠ fileOf src
      -- en passant: the victim square is (dst file, src rank); its occupant
      -- is read after the transfer, recorded as captured, and removed.
      let cs := sqIdx (fileOf dst) (rankOf src)
      let captured1 := if enp then sq1.getD cs none else captured0
      let sq2 := if enp then sq1.set cs none else sq1
      let epSq : Option Nat := if enp then some cs else none
      -- castle: move the corner rook, unless its square is empty.
      let rs := if fileOf dst = 6 then sqIdx 7 (rankOf dst) else sqIdx 0 (rankOf dst)
      let rd := if fileOf dst = 6 then sqIdx 5 (rankOf dst) else sqIdx 3 (rankOf dst)
      let rsPiece := sq2.getD rs none
      let castle : Bool := castle0 && rsPiece.isSome
      let sq3 := if castle then (sq2.set rd rsPiece).set rs none else sq2
      let rsF : Option Nat := if castle then some rs else none
      let rdF : Option Nat := if castle then some rd else none
      -- committed move: MoveCount++ on the moved piece object (which sits
      -- on dst unless the degenerate same-rank en passant removed it) and
      -- LastMovedPiece update.
      let sq4 :=
        if ¬sim ∧ ¬(enp ∧ cs = dst) then
          sq3.set dst (some { p with moveCount := pmc + 1 })
        else sq3
      let lm := if sim then b.lastMoved else some p.pid
      let ev : MoveEvent :=
        { algebraic := san
          capturedPiece := captured1
          castle := castle
          enPassant := enp
          piece := p
          postSquare := dst
          prevSquare := src
          promotion := false
          rookSource := rsF
          rookDestination := rdF
          enPassantCaptureSquare := epSq
          hashCode := ""
          prevMoveCount := pmc
          simulate := sim
          undone := false }
      some ({ squares := sq4, lastMoved := lm }, ev)

/-- The undo closure returned by `Board.Move`: restore the source and
destination occupants, the en-passant victim, the castled rook, and (for
committed moves) the mover's `MoveCount` and `LastMovedPiece`.  A second
invocation is a no-op (`undone` flag). -/
def undoMove (b : Board) (ev : MoveEvent) : Board × MoveEvent :=
  if ev.undone then (b, ev)
  else
    let s1 := b.squares.set ev.prevSquare (some { ev.piece with moveCount := ev.prevMoveCount })
    let s2 := s1.set ev.postSquare ev.capturedPiece
    let s3 :=
      if ev.enPassant then
        match ev.enPassantCaptureSquare with
        | some cs => (s2.set cs ev.capturedPiece).set ev.postSquare none
        | none => s2
      else s2
    let s4 :=
      if ev.castle then
        match ev.rookSource, ev.rookDestination with
        | some rs, some rd => (s3.set rs (s3.getD rd none)).set rd none
        | _, _ => s3
      else s3
    let lm := if ev.simulate then b.lastMoved else none
    ({ squares := s4, lastMoved := lm }, { ev with undone := true })

/-! ### Attack detection (board validator `findAttackers`) -/

/-- One ray of `findAttackers.checkDirection`: walk until the first
occupied square; when it holds an enemy piece whose generated destinations
contain the target, report it as an attacker. -/
def rayAttacker (b : Board) (tp : Piece) (target : Nat) (dir : Nb) :
    Option Nat → Nat → Option (Nat × Piece)
  | none, _ => none
  | some _, 0 => none
  | some cur, fuel + 1 =>
    match cellAt b cur with
    | some q =>
      if q.side ≠ tp.side then
        match pieceDests b cur with
        | some ds => if target ∈ ds then some (cur, q) else none
        | none => none
      else none
    | none => rayAttacker b tp target dir (getNeighborSquare b cur dir) fuel

/-- One knight probe of `findAttackers.checkKnight`. -/
def knightAttacker (b : Board) (tp : Piece) (target : Nat) (dir : Nb) :
    Option (Nat × Piece) :=
  match getNeighborSquare b target dir with
  | none => none
  | some cur =>
    match cellAt b cur with
    | none => none
    | some q =>
      if q.kind ≠ .knight ∨ q.side = tp.side then none
      else
        match pieceDests b cur with
        | some ds => if target ∈ ds then some (cur, q) else none
        | none => none

/-- The eight ray directions probed by `findAttackers`, in source order. -/
def rayDirections : List Nb :=
  [.above, .aboveRight, .right, .belowRight, .below, .belowLeft, .left, .aboveLeft]

/-- The eight knight directions probed by `findAttackers`, in source order. -/
def knightDirections : List Nb :=
  [.kAboveRight, .kRightAbove, .kBelowRight, .kRightBelow,
   .kBelowLeft, .kLeftBelow, .kAboveLeft, .kLeftAbove]

/-- `boardValidator.findAttackers`: the attackers of `target`, empty when
the target reference is nil or the target square is unoccupied. -/
def findAttackers (b : Board) (target : Option Nat) : List (Nat × Piece) :=
  match target with
  | none => []
  | some t =>
    match cellAt b t with
    | none => []
    | some tp =>
      rayDirections.filterMap
        (fun dir => rayAttacker b tp t dir (getNeighborSquare b t dir) 8) ++
      knightDirections.filterMap (fun dir => knightAttacker b tp t dir)

/-- `boardValidator.isSquareAttacked`. -/
def isSquareAttacked (b : Board) (target : Option Nat) : Bool :=
  (findAttackers b target).length > 0

/-! ### The board validator (castle evaluation, king-safety filter) -/

/-- The `potentialMoves` working set: an origin and its destination list. -/
structure PM where
  origin : Nat
  dests : List Nat
deriving DecidableEq

/-- `getValidSquares` inside `evaluateCastle`: the destination list of the
first entry with the given origin. -/
def findDests (vm : List PM) (o : Nat) : Option (List Nat) :=
  match vm.find? (fun p => p.origin = o) with
  | some p => some p.dests
  | none => none

/-- The write-back loop of `evaluateCastle`: append the landing square to
every entry whose origin is the king's square (only done when an entry
exists). -/
def addCastleDest (vm : List PM) (o land : Nat) : List PM :=
  match findDests vm o with
  | none => vm
  | some ds =>
    vm.map fun p => if p.origin = o then { p with dests := ds ++ [land] } else p

/-- One castle side of `evaluateCastle`: simulate the king onto the
step-through square, test it for attack, undo; if clear, simulate onto the
landing square, test, undo.  The board is threaded through the
simulate/undo pairs exactly as the source mutates and restores it. -/
def castleSideTest (b : Board) (eS stepS landS : Nat) : Bool × Board :=
  match boardMove b eS stepS true "" with
  | none => (false, b)
  | some (b1, ev1) =>
    let att1 := isSquareAttacked b1 (some stepS)
    let b2 := (undoMove b1 ev1).1
    if att1 then (false, b2)
    else
      match boardMove b2 eS landS true "" with
      | none => (false, b2)
      | some (b3, ev2) =>
        let att2 := isSquareAttacked b3 (some landS)
        let b4 := (undoMove b3 ev2).1
        (!att2, b4)

/-- The corner-rook guard of `evaluateCastle`: the square holds a rook
that has not moved. -/
def rookGuard (b : Board) (rsq : Nat) : Bool :=
  match cellAt b rsq with
  | some rp => decide (rp.kind = .rook ∧ rp.moveCount = 0)
  | none => false

/-- The queen-side guard of `evaluateCastle`: corner rook unmoved and the
b, c, d squares of the back rank empty. -/
def qCastleGuard (b : Board) (rk : Nat) : Bool :=
  rookGuard b (sqIdx 0 rk) && (cellAt b (sqIdx 1 rk)).isNone &&
  (cellAt b (sqIdx 2 rk)).isNone && (cellAt b (sqIdx 3 rk)).isNone

/-- The king-side guard of `evaluateCastle`: corner rook unmoved and the
f, g squares of the back rank empty. -/
def kCastleGuard (b : Board) (rk : Nat) : Bool :=
  rookGuard b (sqIdx 7 rk) && (cellAt b (sqIdx 5 rk)).isNone &&
  (cellAt b (sqIdx 6 rk)).isNone

/-- `boardValidator.evaluateCastle`: add the queen-side and king-side
landing squares to the king's destination list when the guards and the
step-through attack tests pass.  Returns the updated move list and the
board after the simulate/undo pairs (the king-side guard re-reads the
board returned by the queen-side pairs, as the source reads live
state). -/
def evaluateCastle (sd : Side) (b : Board) (vm : List PM) : List PM × Board :=
  let rk : Nat := if sd = .black then 8 else 1
  let eS := sqIdx 4 rk
  match cellAt b eS with
  | none => (vm, b)
  | some kp =>
    if kp.kind ≠ .king ∨ kp.moveCount ≠ 0 then (vm, b)
    else if isSquareAttacked b (some eS) then (vm, b)
    else
      let p1 :=
        if qCastleGuard b rk then
          let p0 := castleSideTest b eS (sqIdx 3 rk) (sqIdx 2 rk)
          (if p0.1 then addCastleDest vm eS (sqIdx 2 rk) else vm, p0.2)
        else (vm, b)
      if kCastleGuard p1.2 rk then
        let p0 := castleSideTest p1.2 eS (sqIdx 5 rk) (sqIdx 6 rk)
        (if p0.1 then addCastleDest p1.1 eS (sqIdx 6 rk) else p1.1, p0.2)
      else p1

/-- The inner loop of `filterKingAttack` for one origin: simulate each
candidate move, test the king's square (the destination for king moves)
for attack, undo, and keep the destination when the king is safe. -/
def filterDests (b : Board) (kingSq : Option Nat) (o : Nat) :
    List Nat → List Nat × Board
  | [] => ([], b)
  | d :: rest =>
    match boardMove b o d true "" with
    | none => filterDests b kingSq o rest
    | some (b1, ev) =>
      let isCheck :=
        if ev.piece.kind = .king then isSquareAttacked b1 (some d)
        else isSquareAttacked b1 kingSq
      let b2 := (undoMove b1 ev).1
      let (ds, b3) := filterDests b2 kingSq o rest
      (if isCheck then ds else d :: ds, b3)

/-- `boardValidator.filterKingAttack`: keep only king-safe destinations,
dropping origins whose destination list becomes empty. -/
def filterKingAttack (b : Board) (kingSq : Option Nat) :
    List PM → List PM × Board
  | [] => ([], b)
  | mv :: rest =>
    let (ds, b1) := filterDests b kingSq mv.origin mv.dests
    let (tl, b2) := filterKingAttack b1 kingSq rest
    (if ds.length > 0 then { origin := mv.origin, dests := ds } :: tl else tl, b2)

/-- The pseudo-legal phase of `boardValidator.Check`: per-piece generation
for the current side's occupied squares, keeping non-empty lists. -/
def pseudoMoves (b : Board) (sd : Side) : List PM :=
  (getSquares b sd).filterMap fun s =>
    match pieceDests b s with
    | some ds => if ds.length > 0 then some { origin := s, dests := ds } else none
    | none => none

/-- The king-square tracking of `boardValidator.Check` (the loop keeps the
last current-side king seen). -/
def lastKingSquare (b : Board) (sd : Side) : Option Nat :=
  ((getSquares b sd).filter fun s =>
    match cellAt b s with
    | some p => p.kind = .king
    | none => false).getLast?

/-- `boardValidator.Check`: pseudo-legal generation, castle evaluation,
king-safety filtering.  Returns the legal move list and the board after
all simulate/undo pairs (the check/checkmate event emissions carry no
state). -/
def bvCheck (b : Board) (sd : Side) : List PM × Board :=
  let vm := pseudoMoves b sd
  let kingSq := lastKingSquare b sd
  let (vm1, b1) := evaluateCastle sd b vm
  filterKingAttack b1 kingSq vm1

/-! ### The Game container (move history, FEN metadata, hashing) -/

/-- The `Game` struct: board, histories, and the FEN metadata fields
`cstl`, `enP`, `hmc`, `fmn`, `wf`. -/
structure Game where
  board : Board
  captureHistory : List Piece
  moveHistory : List MoveEvent
  cstl : String
  enP : Option Nat
  hmc : Int
  fmn : Int
  wf : Bool
deriving DecidableEq

/-- `Game.getCurrentSide`: parity of the move history, seeded by `wf`. -/
def currentSide (g : Game) : Side :=
  if g.moveHistory.length % 2 = 0 then (if g.wf then .white else .black)
  else (if g.wf then .black else .white)

/-- `Game.getHashCode`: the canonical position string over the occupied
squares in board order — `file rank sideMarker pieceLetter [p]` joined by
dashes.  The md5/base64 digest of the source is modelled as the identity
encoding (only digest equality is ever observed). -/
def getHashCode (b : Board) : String :=
  let parts :=
    (List.range b.squares.length).filterMap fun i =>
      match cellAt b i with
      | none => none
      | some p =>
        some (String.mk [Char.ofNat (97 + fileOf i)] ++ toString (rankOf i) ++
          (if p.side = .white then "w" else "b") ++ p.kind.letterStr ++
          (if p.kind = .pawn then "p" else ""))
  String.intercalate "-" parts

/-- The castling-availability update of `Game.recordMove`. -/
def castleUpdate (cstl : String) (ev : MoveEvent) : String :=
  if ev.piece.kind = .king then
    if ev.piece.side = .white then replaceChar (replaceChar cstl 'K' none) 'Q' none
    else replaceChar (replaceChar cstl 'k' none) 'q' none
  else if ev.piece.kind = .rook then
    if fileOf ev.prevSquare = 0 then
      if rankOf ev.prevSquare = 1 then replaceChar cstl 'Q' none
      else if rankOf ev.prevSquare = 8 then replaceChar cstl 'q' none
      else cstl
    else if fileOf ev.prevSquare = 7 then
      if rankOf ev.prevSquare = 1 then replaceChar cstl 'K' none
      else if rankOf ev.prevSquare = 8 then replaceChar cstl 'k' none
      else cstl
    else cstl
  else cstl

/-- The en-passant-target update of `Game.recordMove`: the square a pawn
passed over on a two-square first push, otherwise cleared.  The source
reads the live `MoveCount` of the moved piece, which is
`prevMoveCount + 1` after the commit. -/
def enPUpdate (b : Board) (ev : MoveEvent) : Option Nat :=
  if ev.piece.kind = .pawn ∧ ev.prevMoveCount + 1 = 1 then
    let prvR : Int := rankOf ev.prevSquare
    let dstR : Int := rankOf ev.postSquare
    if (dstR - prvR).natAbs = 2 then
      if dstR > prvR then getSquare b (fileOf ev.prevSquare) (dstR - 1)
      else if dstR < prvR then getSquare b (fileOf ev.prevSquare) (dstR + 1)
      else none
    else none
  else none

/-- `Game.move` on a committed `Board.Move`, together with the `move`
event handler `Game.recordMove`: stamp the position hash, append to the
histories, and update the FEN metadata (half-move clock, full-move number,
castling availability, en-passant target, in source order). -/
def gameMove (g : Game) (src dst : Nat) (san : String) : Option (Game × MoveEvent) :=
  match boardMove g.board src dst false san with
  | none => none
  | some (b1, ev0) =>
    let ev := { ev0 with hashCode := getHashCode b1 }
    let mh := g.moveHistory ++ [ev]
    let ch :=
      match ev.capturedPiece with
      | some c => g.captureHistory ++ [c]
      | none => g.captureHistory
    let hmc : Int :=
      if ev.capturedPiece ≠ none ∨ ev.piece.kind = .pawn then 0 else g.hmc + 1
    let gMid : Game :=
      { g with board := b1, moveHistory := mh, captureHistory := ch, hmc := hmc }
    let fmn : Int :=
      if g.fmn ≥ 1 ∧ currentSide gMid = .white then g.fmn + 1 else g.fmn
    some ({ gMid with
              fmn := fmn
              cstl := castleUpdate g.cstl ev
              enP := enPUpdate b1 ev }, ev)

/-- Invoking the undo handle of a committed move at the Game level: the
board-level undo closure followed by the Game's `undo` event handler,
which pops the histories and restores `LastMovedPiece` to the piece of the
new history tail (or null). -/
def gameUndo (g : Game) (ev : MoveEvent) : Game :=
  if ev.undone then g
  else
    let b1 := (undoMove g.board ev).1
    if ev.simulate then { g with board := b1 }
    else
      let mh := g.moveHistory.dropLast
      let ch :=
        if ev.capturedPiece ≠ none ∧ g.captureHistory.length > 0 then
          g.captureHistory.dropLast
        else g.captureHistory
      let lm :=
        match mh.getLast? with
        | some e => some e.piece.pid
        | none => none
      { g with
          board := { b1 with lastMoved := lm }
          moveHistory := mh
          captureHistory := ch }

/-- `Board.Promote` plus `Game.promote`: replace the occupant, inheriting
its move count, update `LastMovedPiece`, and mark the last history entry
as a promotion.  `none` on the Go error cases. -/
def gamePromote (g : Game) (sq : Nat) (p : Piece) : Option Game :=
  if sq ≥ g.board.squares.length then none
  else
    match cellAt g.board sq with
    | none => none
    | some old =>
      let p' := { p with moveCount := old.moveCount }
      let b1 : Board :=
        { squares := g.board.squares.set sq (some p'), lastMoved := some p'.pid }
      let mh :=
        match g.moveHistory.getLast? with
        | some e => g.moveHistory.dropLast ++ [{ e with promotion := true }]
        | none => g.moveHistory
      some { g with board := b1, moveHistory := mh }

/-- `Game.fen`: the six space-separated FEN fields. -/
def rowFENCells (cells : List (Option Piece)) : String :=
  let r := cells.foldl
    (fun (acc : String × Nat) c =>
      match c with
      | none => (acc.1, acc.2 + 1)
      | some p =>
        (acc.1 ++ (if acc.2 > 0 then toString acc.2 else "") ++ pieceFEN p, 0))
    ("", 0)
  r.1 ++ (if r.2 > 0 then toString r.2 else "")

/-- The cells of rank `r` (1-based) in file order a–h. -/
def rankCells (b : Board) (r : Nat) : List (Option Piece) :=
  (List.range 8).map fun f => cellAt b (sqIdx f r)

/-- `Board.fenPiecePlacement`: ranks 8 down to 1, empties run-length
encoded, separated by slashes. -/
def fenPiecePlacement (b : Board) : String :=
  String.intercalate "/"
    (((List.range 8).map fun k => rowFENCells (rankCells b (8 - k))))

/-- `Game.fen`. -/
def gameFEN (g : Game) : String :=
  fenPiecePlacement g.board ++ " " ++
  (if currentSide g = .white then "w" else "b") ++ " " ++
  g.cstl ++ " " ++
  (match g.enP with
    | some i => sqName i
    | none => "-") ++ " " ++
  toString g.hmc ++ " " ++ toString g.fmn

/-! ### Board and game construction (boards.go `createBoard`, `loadBoard`,
the game factory) -/

/-- The back-rank piece kind at file `c` (`createBoard`'s switch). -/
def backKind (c : Nat) : PieceKind :=
  if c = 0 ∨ c = 7 then .rook
  else if c = 1 ∨ c = 6 then .knight
  else if c = 2 ∨ c = 5 then .bishop
  else if c = 3 then .queen
  else .king

/-- The standard-position occupant of square `i` (kind and side). -/
def standardCell (i : Nat) : Option (PieceKind × Side) :=
  let r := i / 8 + 1
  let c := i % 8
  if r = 1 then some (backKind c, .white)
  else if r = 2 then some (.pawn, .white)
  else if r = 7 then some (.pawn, .black)
  else if r = 8 then some (backKind c, .black)
  else none

/-- `createBoard`: the standard starting position; the piece allocated for
square `i` receives pid `i`. -/
def createBoard : Board :=
  { squares := (List.range 64).map fun i =>
      (standardCell i).map fun ks => { kind := ks.1, side := ks.2, moveCount := 0, pid := i }
    lastMoved := none }

/-- `createGame`: default metadata `KQkq`, full-move number 1, `wf`
override. -/
def createGame (wf : Bool) : Game :=
  { board := createBoard
    captureHistory := []
    moveHistory := []
    cstl := "KQkq"
    enP := none
    hmc := 0
    fmn := 1
    wf := wf }

/-- The piece denoted by a FEN character (`loadBoard`'s switch). -/
def pieceOfChar (c : Char) : Option (PieceKind × Side) :=
  match c with
  | 'p' => some (.pawn, .black)
  | 'P' => some (.pawn, .white)
  | 'n' => some (.knight, .black)
  | 'N' => some (.knight, .white)
  | 'b' => some (.bishop, .black)
  | 'B' => some (.bishop, .white)
  | 'r' => some (.rook, .black)
  | 'R' => some (.rook, .white)
  | 'q' => some (.queen, .black)
  | 'Q' => some (.queen, .white)
  | 'k' => some (.king, .black)
  | 'K' => some (.king, .white)
  | _ => none

/-- One FEN rank row parsed to its cells: digits `1`–`8` expand to empty
cells, piece letters to occupants, anything else is rejected. -/
def parseRowCells : List Char → Option (List (Option (PieceKind × Side)))
  | [] => some []
  | c :: rest =>
    if '1' ≤ c ∧ c ≤ '8' then
      (parseRowCells rest).map fun tl => List.replicate (c.toNat - 48) none ++ tl
    else
      match pieceOfChar c with
      | some ks => (parseRowCells rest).map fun tl => some ks :: tl
      | none => none

/-- A parsed row accepted only when it covers exactly 8 files.  This is
the acceptance condition of the source: its running file counter must end
at 8 (a row that overflows mid-rank either panics on the top rank or
fails the final counter check, so it is never accepted). -/
def parseRow (row : String) : Option (List (Option (PieceKind × Side))) :=
  match parseRowCells row.data with
  | some cells => if cells.length = 8 then some cells else none
  | none => none

/-- `loadBoard`: split the first FEN field into 8 rank rows (rank 8
first), parse each, and assemble the board; the piece created for square
`i` receives pid `i`. -/
def loadBoard (fen : String) : Option Board :=
  let parts := splitOnChar ' ' fen.data
  let rs := splitOnChar '/' (parts.getD 0 "").data
  if rs.length ≠ 8 then none
  else
    match rs.mapM parseRow with
    | none => none
    | some rows =>
      let cells := rows.reverse.flatten
      some { squares := cells.enum.map fun ic =>
               ic.2.map fun ks => { kind := ks.1, side := ks.2, moveCount := 0, pid := ic.1 }
             lastMoved := none }

/-! ### The game validator (game_validator.go) -/

/-- `gameValidator.findKingSquare`: the first king of the side in board
order. -/
def findKingSquare (b : Board) (sd : Side) : Option Nat :=
  (getSquares b sd).find? fun s =>
    match cellAt b s with
    | some p => p.kind = .king
    | none => false

/-- Replace-or-insert into an association list (Go map assignment). -/
def upsertCount (counts : List (String × Nat)) (h : String) (n : Nat) :
    List (String × Nat) :=
  if (counts.lookup h).isSome then
    counts.map fun e => if e.1 = h then (h, n) else e
  else counts ++ [(h, n)]

/-- The counting loop of `gameValidator.isRepetition`: bump each hash
code's count in order and stop as soon as one reaches 3. -/
def isRepetitionAux : List (String × Nat) → List String → Bool
  | _, [] => false
  | counts, h :: rest =>
    let c := (counts.lookup h).getD 0 + 1
    if c = 3 then true else isRepetitionAux (upsertCount counts h c) rest

/-- `gameValidator.isRepetition`. -/
def gameIsRepetition (g : Game) : Bool :=
  isRepetitionAux [] (g.moveHistory.map (·.hashCode))

/-- `validationResult` from game_validator.go. -/
structure ValidationResult where
  isCheck : Bool
  isCheckmate : Bool
  isRepetition : Bool
  isStalemate : Bool
  validMoves : List PM
deriving DecidableEq

/-- `gameValidator.Check`: run the board validator and derive the
check / checkmate / stalemate / repetition flags. -/
def gvCheck (g : Game) : ValidationResult × Board :=
  let sd := currentSide g
  let (vm, b1) := bvCheck g.board sd
  let kingSq := findKingSquare b1 sd
  let isAtt := isSquareAttacked b1 kingSq
  ({ isCheck := isAtt && vm.length > 0
     isCheckmate := isAtt && vm.length = 0
     isStalemate := !isAtt && vm.length = 0
     isRepetition := gameIsRepetition g
     validMoves := vm }, b1)

/-! ### The SAN resolver and client (algebraic.go) -/

/-- `notationMove`: a legal-move table entry. -/
structure SanMove where
  src : Nat
  dst : Nat
deriving DecidableEq

/-- `getValidMovesByPieceType`: the entries whose origin currently holds a
piece of the given kind. -/
def movesByKind (b : Board) (pt : PieceKind) (vms : List PM) : List PM :=
  vms.filter fun mv =>
    match cellAt b mv.origin with
    | some p => p.kind = pt
    | none => false

/-- `getNotationPrefix`: start from the piece letter; append the source
file when more than one source file is represented among same-kind moves
reaching `dest`, and the source rank when the represented ranks outnumber
the represented files. -/
def getSanPrefix (b : Board) (src dest : Nat) (moves : List PM) : String :=
  let pfx0 :=
    match cellAt b src with
    | some p => p.kind.letterStr
    | none => ""
  let origins := moves.foldl
    (fun acc mv =>
      acc ++ mv.dests.filterMap fun sq => if sq = dest then some mv.origin else none)
    []
  let files := (origins.map fileOf).dedup
  let ranks := (origins.map rankOf).dedup
  let pfx1 :=
    if files.length > 1 then pfx0 ++ String.mk [Char.ofNat (97 + fileOf src)] else pfx0
  if ranks.length > files.length then pfx1 ++ toString (rankOf src) else pfx1

/-- Go map assignment into the SAN table. -/
def upsertSan (tbl : List (String × SanMove)) (k : String) (v : SanMove) :
    List (String × SanMove) :=
  if (tbl.lookup k).isSome then tbl.map fun e => if e.1 = k then (k, v) else e
  else tbl ++ [(k, v)]

/-- The SAN key(s) of one (src, dest) pair, per `notate`'s loop body:
either a single key, or the four promotion-expanded keys. -/
def sanKeys (b : Board) (pgn : Bool) (vms : List PM) (src dest : Nat)
    (p : Piece) : List String :=
  let sfx0 := if (cellAt b dest).isSome then "x" ++ sqName dest else sqName dest
  let isPromo := (rankOf dest = 1 ∨ rankOf dest = 8) ∧ p.kind = .pawn
  let pfxA :=
    if (cellAt b dest).isSome ∧ p.kind = .pawn then
      String.mk [Char.ofNat (97 + fileOf src)]
    else ""
  let pfxB :=
    if p.kind = .pawn ∧ fileOf src ≠ fileOf dest ∧ cellAt b dest = none then
      String.mk [Char.ofNat (97 + fileOf src)] ++ "x"
    else pfxA
  let (pfx, sfx) :=
    match p.kind with
    | .bishop | .knight | .queen | .rook =>
      let mtchs := movesByKind b p.kind vms
      (if mtchs.length > 1 then getSanPrefix b src dest mtchs
       else p.kind.letterStr, sfx0)
    | .king =>
      if fileOf src = 4 ∧ fileOf dest = 6 then
        ((if pgn then "O-O" else "0-0"), "")
      else if fileOf src = 4 ∧ fileOf dest = 2 then
        ((if pgn then "O-O-O" else "0-0-0"), "")
      else (p.kind.letterStr, sfx0)
    | .pawn => (pfxB, sfx0)
  let pfx' := if pfx = "" ∧ p.kind ≠ .pawn then p.kind.letterStr else pfx
  if isPromo then ["R", "N", "B", "Q"].map fun pr => pfx' ++ sfx ++ pr
  else [pfx' ++ sfx]

/-- `AlgebraicGameClient.notate`: render every legal (src, dest) pair into
the SAN-keyed table via Go map assignment. -/
def notate (b : Board) (pgn : Bool) (vms : List PM) : List (String × SanMove) :=
  vms.foldl
    (fun tbl vm =>
      match cellAt b vm.origin with
      | none => tbl
      | some p =>
        vm.dests.foldl
          (fun tbl dest =>
            (sanKeys b pgn vms vm.origin dest p).foldl
              (fun tbl k => upsertSan tbl k { src := vm.origin, dst := dest })
              tbl)
          tbl)
    []

/-- The full client state of `AlgebraicGameClient`.  `nextId` supplies
fresh pids for pieces allocated by promotion. -/
structure ClientState where
  game : Game
  isCheck : Bool
  isCheckmate : Bool
  isRepetition : Bool
  isStalemate : Bool
  sanMoves : List (String × SanMove)
  validMoves : List PM
  pgn : Bool
  nextId : Nat
deriving DecidableEq

/-- `AlgebraicGameClient.update`: re-run validation and re-render the SAN
table. -/
def clientUpdate (c : ClientState) : ClientState :=
  let (res, b1) := gvCheck c.game
  { c with
      game := { c.game with board := b1 }
      isCheck := res.isCheck
      isCheckmate := res.isCheckmate
      isRepetition := res.isRepetition
      isStalemate := res.isStalemate
      validMoves := res.validMoves
      sanMoves := notate b1 c.pgn res.validMoves }

/-- `CreateAlgebraicGameClient`. -/
def createClient (pgn : Bool) : ClientState :=
  clientUpdate
    { game := createGame true
      isCheck := false, isCheckmate := false
      isRepetition := false, isStalemate := false
      sanMoves := [], validMoves := [], pgn := pgn, nextId := 64 }

/-- Go `strconv.Atoi` with its error ignored (the source discards the
error and keeps the 0 result). -/
def goAtoi (s : String) : Int :=
  let (sign, digits) :=
    match s.data with
    | '+' :: rest => ((1 : Int), rest)
    | '-' :: rest => ((-1 : Int), rest)
    | chars => ((1 : Int), chars)
  if digits = [] ∨ ¬ digits.all (fun c => '0' ≤ c ∧ c ≤ '9') then 0
  else sign * digits.foldl (fun a c => a * 10 + ((c.toNat - 48 : Nat) : Int)) 0

/-- `CreateAlgebraicGameClientFromFEN`: load the board, derive `wf` from
the active color, copy the castling field verbatim, parse the en-passant
target and the clocks, then run the initial update. -/
def createClientFromFEN (fen : String) (pgn : Bool) : Option ClientState :=
  if fen.data.all (fun c => c = ' ' ∨ c = '\t' ∨ c = '\n' ∨ c = '\r') then none
  else
    match loadBoard fen with
    | none => none
    | some b =>
      let parts := splitOnChar ' ' fen.data
      let active := parts.getD 1 "w"
      let bs : Side := if active = "b" then .black else .white
      let g0 := { createGame (bs = .white) with board := b }
      let g1 := if parts.length > 2 then { g0 with cstl := parts.getD 2 "" } else g0
      let g2 :=
        if parts.length > 3 then { g1 with enP := getSquareByName b (parts.getD 3 "") }
        else g1
      let g3 := if parts.length > 4 then { g2 with hmc := goAtoi (parts.getD 4 "") } else g2
      let g4 := if parts.length > 5 then { g3 with fmn := goAtoi (parts.getD 5 "") } else g3
      some (clientUpdate
        { game := g4
          isCheck := false, isCheckmate := false
          isRepetition := false, isStalemate := false
          sanMoves := [], validMoves := [], pgn := pgn, nextId := 64 })

/-- `AlgebraicGameClient.FEN`. -/
def clientFEN (c : ClientState) : String := gameFEN c.game

/-- `sanitizeNotation`: strip annotations and normalize castling glyphs
according to the PGN flag. -/
def sanitizeSan (n : String) (usePGN : Bool) : String :=
  let clean := replaceChar (replaceChar (replaceChar (replaceChar
    (replaceChar n '!' none) '+' none) '#' none) '=' none) '\\' none
  if usePGN then replaceChar clean '0' (some 'O') else replaceChar clean 'O' (some '0')

def isFileChar (c : Char) : Bool := 'a' ≤ c ∧ c ≤ 'h'

def isRankChar (c : Char) : Bool := '1' ≤ c ∧ c ≤ '8'

def isPieceChar (c : Char) : Bool :=
  c = 'B' ∨ c = 'K' ∨ c = 'Q' ∨ c = 'N' ∨ c = 'R'

/-- The mandatory suffix of the fuzzy-shape pattern:
`[a-h][1-8][+#]?` at end of input. -/
def sanShapeTail : List Char → Bool
  | [f, r] => isFileChar f && isRankChar r
  | [f, r, s] => isFileChar f && isRankChar r && (s = '+' || s = '#')
  | _ => false

/-- One optional single-character class of the pattern, with
backtracking. -/
def matchOpt (cls : Char → Bool) (k : List Char → Bool) (s : List Char) : Bool :=
  (match s with
   | c :: rest => cls c && k rest
   | [] => false) || k s

/-- The `notationRegex` pattern `[BKQNR]?[a-h]?[1-8]?[x-]?[a-h][1-8][+#]?`
anchored at both ends. -/
def sanShapeMatch (s : String) : Bool :=
  matchOpt isPieceChar
    (matchOpt isFileChar
      (matchOpt isRankChar
        (matchOpt (fun c => c = 'x' || c = '-') sanShapeTail)))
    s.data

/-- The `captureRegex` pattern `^[a-h]x[a-h][1-8]$` of `parseNotation`. -/
def capturePattern : List Char → Bool
  | [a, x, bb, r] => isFileChar a && x = 'x' && isFileChar bb && isRankChar r
  | _ => false

/-- `parseNotation`: reduce a SAN-shaped string to destination square plus
optional piece letter. -/
def parseSan (n : String) : String :=
  if n.length < 2 then ""
  else
    let dest := String.mk (n.data.drop (n.length - 2))
    if n.length > 2 ∧ capturePattern n.data then dest
    else if n.length > 2 then String.mk (n.data.take 1) ++ dest
    else ""

/-- The promotion kind requested by a trailing `B`/`N`/`Q`/`R`. -/
def promoKind (n : String) : Option PieceKind :=
  match n.data.getLast? with
  | some 'B' => some .bishop
  | some 'N' => some .knight
  | some 'Q' => some .queen
  | some 'R' => some .rook
  | _ => none

/-- One pass of `AlgebraicGameClient.Move` without the fuzzy retry:
`Sum.inr s` means the source would recurse on `s` with `fuzzy = true`. -/
def clientMoveStep (c : ClientState) (n0 : String) (allowRetry : Bool) :
    (ClientState × Option String) ⊕ String :=
  if n0 = "" then .inl (c, some "notation is invalid")
  else
    let n := sanitizeSan n0 c.pgn
    match c.sanMoves.lookup n with
    | some mv =>
      match gameMove c.game mv.src mv.dst n with
      | none => .inl (c, some "move error")
      | some (g1, ev) =>
        let c1 := { c with game := g1 }
        match promoKind n with
        | some pk =>
          let sd := (currentSide g1).opponent
          let p := newPiece pk sd c1.nextId
          let c2 := { c1 with nextId := c1.nextId + 1 }
          match gamePromote c2.game ev.postSquare p with
          | none => .inl (c2, some "promote error")
          | some g2 => .inl (clientUpdate { c2 with game := g2 }, none)
        | none => .inl (clientUpdate c1, none)
    | none =>
      if sanShapeMatch n ∧ n.length > 1 ∧ allowRetry then .inr (parseSan n)
      else .inl (c, some ("notation is invalid (" ++ n ++ ")"))

/-- `AlgebraicGameClient.Move`: direct lookup after sanitization, then the
single fuzzy retry (the recursion passes `fuzzy = true`, so it cannot
recurse again). -/
def clientMove (c : ClientState) (n0 : String) (fzzy : Bool) :
    ClientState × Option String :=
  match clientMoveStep c n0 (!fzzy) with
  | .inl r => r
  | .inr retryN =>
    match clientMoveStep c retryN false with
    | .inl r => r
    | .inr _ => (c, some "unreachable")

/-! ## Claim C8 -/

lemma clientMoveStep_not_found (c : ClientState) (n0 : String) (ar : Bool)
    (hlk : c.sanMoves.lookup (sanitizeSan n0 c.pgn) = none) :
    (∃ e, clientMoveStep c n0 ar = .inl (c, some e)) ∨
    (ar = true ∧ clientMoveStep c n0 ar = .inr (parseSan (sanitizeSan n0 c.pgn))) := by
  unfold clientMoveStep
  by_cases h0 : n0 = ""
  · rw [if_pos h0]
    exact .inl ⟨_, rfl⟩
  · rw [if_neg h0]
    simp only [hlk]
    split
    · rename_i hcond
      exact .inr ⟨hcond.2.2, rfl⟩
    · exact .inl ⟨_, rfl⟩

/-- C8: every input whose sanitized form is not a key of the legal-move
table, and whose fuzzy-fallback reduction is not a key either, makes
`Move` return an error with the client state — board, histories, legal
table, FEN — exactly as it was. -/
theorem clientMove_unresolved_leaves_state (c : ClientState) (n0 : String)
    (hdirect : c.sanMoves.lookup (sanitizeSan n0 c.pgn) = none)
    (hfuzzy : c.sanMoves.lookup
        (sanitizeSan (parseSan (sanitizeSan n0 c.pgn)) c.pgn) = none) :
    (clientMove c n0 false).1 = c ∧ (clientMove c n0 false).2 ≠ none ∧
      clientFEN (clientMove c n0 false).1 = clientFEN c := by
  have hstep1 := clientMoveStep_not_found c n0 true hdirect
  have hnot : (!false) = true := rfl
  unfold clientMove
  rw [hnot]
  rcases hstep1 with ⟨e, he⟩ | ⟨-, he⟩
  · rw [he]
    exact ⟨rfl, by simp, rfl⟩
  · rw [he]
    rcases clientMoveStep_not_found c (parseSan (sanitizeSan n0 c.pgn)) false hfuzzy with
      ⟨e2, he2⟩ | ⟨hfalse, -⟩
    · simp [he2]
    · exact absurd hfalse (by simp)

/-- A legal position with two white rooks both reaching h3 (a3 and h1),
so the bare SAN `Rh3` is ambiguous. -/
def rrFEN : String := "k7/8/8/8/8/R7/8/7R w - - 0 1"

/-- The client resulting from loading `rrFEN`. -/
def rrClient : ClientState := (createClientFromFEN rrFEN false).getD (createClient false)

/-- Witness for C8: on the two-rook position the ambiguous `Rh3` is not a
table key (only `Rah3` and `Rhh3` are), its fuzzy reduction `Rh3` is not
either, and the failed `Move` call returns an error with the state
untouched. -/
theorem clientMove_unresolved_leaves_state_witness :
    (rrClient.sanMoves.lookup (sanitizeSan "Rh3" rrClient.pgn) = none) ∧
    (rrClient.sanMoves.lookup
        (sanitizeSan (parseSan (sanitizeSan "Rh3" rrClient.pgn)) rrClient.pgn) = none) ∧
    ((clientMove rrClient "Rh3" false).1 = rrClient ∧
      (clientMove rrClient "Rh3" false).2 ≠ none ∧
      clientFEN (clientMove rrClient "Rh3" false).1 = clientFEN rrClient) :=
  ⟨by decide, by decide,
    clientMove_unresolved_leaves_state rrClient "Rh3" (by decide) (by decide)⟩

/-! ## Shared concrete positions used by witnesses and counterexamples -/

/-- A legal position with three white queens (a1, a3, c1), kings h1/h8,
Black; loadable through the public FEN API and reachable over the board
via promotions. -/
def qqFEN : String := "7k/8/8/8/8/Q7/8/Q1Q4K w - - 0 1"

/-- The client resulting from loading `qqFEN`. -/
def qqClient : ClientState := (createClientFromFEN qqFEN false).getD (createClient false)

/-! ## Claim C10 -/

/-- C10: attack detection is defined only for occupied squares — for every
square reference that is nil or whose square holds no piece,
`findAttackers` returns the empty list and `isSquareAttacked` returns
false, regardless of the rest of the position. -/
theorem findAttackers_unoccupied (b : Board) (t : Option Nat)
    (h : t.bind (fun i => cellAt b i) = none) :
    findAttackers b t = [] ∧ isSquareAttacked b t = false := by
  have hfa : findAttackers b t = [] := by
    cases t with
    | none => rfl
    | some i =>
      have h' : cellAt b i = none := h
      simp [findAttackers, h']
  exact ⟨hfa, by simp [isSquareAttacked, hfa]⟩

/-- Witness for C10: square b2 of the three-queen position is empty while
three enemy queens bear on it, and `findAttackers` still reports nothing. -/
theorem findAttackers_unoccupied_witness :
    ((some 9 : Option Nat).bind (fun i => cellAt qqClient.game.board i) = none) ∧
    (findAttackers qqClient.game.board (some 9) = [] ∧
      isSquareAttacked qqClient.game.board (some 9) = false) :=
  ⟨by decide, findAttackers_unoccupied qqClient.game.board (some 9) (by decide)⟩

/-! ## Claim C9 -/

lemma lookup_cons_pair {β : Type} (a k : String) (v : β) (l : List (String × β)) :
    List.lookup a ((k, v) :: l) = if a = k then some v else List.lookup a l := by
  by_cases h : a = k
  · subst h
    simp [List.lookup]
  · have hb : (a == k) = false := by simpa using h
    simp [List.lookup, hb, h]

lemma lookup_mapRep_self (hd : String) (n : Nat) :
    ∀ counts : List (String × Nat),
      (counts.map fun e => if e.1 = hd then (hd, n) else e).lookup hd =
        if (counts.lookup hd).isSome then some n else none
  | [] => by simp
  | (k, v) :: rest => by
    have hred : ((k, v).1 = hd) = (k = hd) := rfl
    rw [List.map_cons]
    simp only [hred]
    rw [lookup_cons_pair]
    by_cases hk : k = hd
    · subst hk
      rw [if_pos rfl, lookup_cons_pair, if_pos rfl]
      simp
    · have hdk : hd ≠ k := fun hh => hk hh.symm
      rw [if_neg hk, lookup_cons_pair, if_neg hdk, if_neg hdk]
      exact lookup_mapRep_self hd n rest

lemma lookup_mapRep_ne (hd s : String) (n : Nat) (hne : s ≠ hd) :
    ∀ counts : List (String × Nat),
      (counts.map fun e => if e.1 = hd then (hd, n) else e).lookup s =
        counts.lookup s
  | [] => by simp
  | (k, v) :: rest => by
    have hred : ((k, v).1 = hd) = (k = hd) := rfl
    rw [List.map_cons]
    simp only [hred]
    rw [lookup_cons_pair]
    by_cases hk : k = hd
    · subst hk
      rw [if_pos rfl, lookup_cons_pair, if_neg hne, if_neg hne]
      exact lookup_mapRep_ne k s n hne rest
    · rw [if_neg hk, lookup_cons_pair]
      by_cases hsk : s = k
      · rw [if_pos hsk, if_pos hsk]
      · rw [if_neg hsk, if_neg hsk]
        exact lookup_mapRep_ne hd s n hne rest

lemma lookup_append_single_self (hd : String) (n : Nat) :
    ∀ counts : List (String × Nat), counts.lookup hd = none →
      (counts ++ [(hd, n)]).lookup hd = some n
  | [] => by
    intro _
    simp [lookup_cons_pair]
  | (k, v) :: rest => by
    intro hnone
    rw [lookup_cons_pair] at hnone
    rw [List.cons_append, lookup_cons_pair]
    by_cases hk : hd = k
    · rw [if_pos hk] at hnone
      exact absurd hnone (by simp)
    · rw [if_neg hk] at hnone
      rw [if_neg hk]
      exact lookup_append_single_self hd n rest hnone

lemma lookup_append_single_ne (hd s : String) (n : Nat) (hne : s ≠ hd) :
    ∀ counts : List (String × Nat),
      (counts ++ [(hd, n)]).lookup s = counts.lookup s
  | [] => by simp [lookup_cons_pair, hne]
  | (k, v) :: rest => by
    rw [List.cons_append, lookup_cons_pair, lookup_cons_pair]
    by_cases hsk : s = k
    · rw [if_pos hsk, if_pos hsk]
    · rw [if_neg hsk, if_neg hsk]
      exact lookup_append_single_ne hd s n hne rest

lemma lookup_upsertCount_self (counts : List (String × Nat)) (hd : String) (n : Nat) :
    (upsertCount counts hd n).lookup hd = some n := by
  unfold upsertCount
  split
  · rename_i hsome
    rw [lookup_mapRep_self, if_pos hsome]
  · rename_i hnone
    apply lookup_append_single_self
    cases hl : counts.lookup hd
    · rfl
    · exact absurd (by rw [hl]; rfl) hnone

lemma lookup_upsertCount_ne (counts : List (String × Nat)) (hd s : String) (n : Nat)
    (hne : s ≠ hd) : (upsertCount counts hd n).lookup s = counts.lookup s := by
  unfold upsertCount
  split
  · exact lookup_mapRep_ne hd s n hne counts
  · exact lookup_append_single_ne hd s n hne counts

lemma isRepetitionAux_iff (hist : List String) (counts : List (String × Nat))
    (processed : List String)
    (hc : ∀ s, ((counts.lookup s).getD 0) = processed.count s)
    (hb : ∀ s, processed.count s ≤ 2) :
    isRepetitionAux counts hist = true ↔ ∃ s, 3 ≤ processed.count s + hist.count s := by
  induction hist generalizing counts processed with
  | nil =>
    simp only [isRepetitionAux, List.count_nil, Nat.add_zero]
    constructor
    · intro hfalse
      exact absurd hfalse (by simp)
    · rintro ⟨s, hs⟩
      exact absurd (hb s) (by omega)
  | cons hd rest ih =>
    simp only [isRepetitionAux]
    rw [hc hd]
    have hcnt : ∀ s : String, processed.count s + (hd :: rest).count s =
        (processed ++ [hd]).count s + rest.count s := by
      intro s
      by_cases hs : s = hd
      · subst hs
        simp [List.count_append, List.count_cons]
        omega
      · have hbs : (hd == s) = false := by simpa using Ne.symm hs
        simp [List.count_append, List.count_cons, hbs]
    by_cases h3 : processed.count hd + 1 = 3
    · rw [if_pos h3]
      simp only [true_iff]
      refine ⟨hd, ?_⟩
      have h1 : 1 ≤ (hd :: rest).count hd := by
        simp [List.count_cons]
      omega
    · rw [if_neg h3]
      have hA : ∀ s,
          (((upsertCount counts hd (processed.count hd + 1)).lookup s).getD 0) =
            (processed ++ [hd]).count s := by
        intro s
        by_cases hs : s = hd
        · subst hs
          rw [lookup_upsertCount_self]
          simp [List.count_append, List.count_cons]
        · rw [lookup_upsertCount_ne _ _ _ _ hs, hc s]
          have hbs : (hd == s) = false := by simpa using Ne.symm hs
          simp [List.count_append, List.count_cons, hbs]
      have hB : ∀ s, (processed ++ [hd]).count s ≤ 2 := by
        intro s
        by_cases hs : s = hd
        · subst hs
          have hle := hb s
          have h2 : processed.count s + 1 ≤ 2 := by omega
          simp [List.count_append, List.count_cons]
          omega
        · have hle := hb s
          have hbs : (hd == s) = false := by simpa using Ne.symm hs
          simp [List.count_append, List.count_cons, hbs]
          omega
      rw [ih _ _ hA hB]
      exact exists_congr fun s => by rw [hcnt s]

/-- C9: `isRepetition` reports a repetition exactly when some hash value
occurs at least three times among the move history's hash codes, and the
position hash depends only on the board's squares (identical piece
placement gives identical hashes whatever the side to move, castling
availability or en-passant state is). -/
theorem isRepetition_spec :
    (∀ g : Game, gameIsRepetition g = true ↔
      ∃ h, 3 ≤ (g.moveHistory.map MoveEvent.hashCode).count h) ∧
    (∀ b1 b2 : Board, b1.squares = b2.squares → getHashCode b1 = getHashCode b2) := by
  constructor
  · intro g
    simpa using isRepetitionAux_iff (g.moveHistory.map MoveEvent.hashCode) [] []
      (fun s => by simp [List.lookup]) (fun s => by simp)
  · intro b1 b2 h
    simp only [getHashCode, cellAt, h]

/-- A move-history entry carrying only a hash code, for the C9 witness. -/
def hashOnlyEvent (h : String) : MoveEvent :=
  { algebraic := "", capturedPiece := none, castle := false
    enPassant := false
    piece := { kind := .pawn, side := .white, moveCount := 0, pid := 8 }
    postSquare := 0, prevSquare := 0, promotion := false
    rookSource := none, rookDestination := none
    enPassantCaptureSquare := none, hashCode := h
    prevMoveCount := 0, simulate := false, undone := false }

/-- A game whose history repeats the hash "a" three times. -/
def repGame : Game :=
  { createGame true with
      moveHistory := ["a", "b", "a", "b", "a"].map hashOnlyEvent }

/-- Witness for C9: the repetition test fires on `repGame` (hash "a"
occurs three times), and two boards differing only in `lastMoved` hash
equally. -/
theorem isRepetition_spec_witness :
    (gameIsRepetition repGame = true ↔
      ∃ h, 3 ≤ (repGame.moveHistory.map MoveEvent.hashCode).count h) ∧
    ({ createBoard with lastMoved := some 12 } : Board).squares = createBoard.squares ∧
    getHashCode { createBoard with lastMoved := some 12 } = getHashCode createBoard :=
  ⟨isRepetition_spec.1 repGame, rfl, isRepetition_spec.2 _ _ rfl⟩

/-! ## Claim C3 -/

/-- C3: from the default initial position the legal-move table has exactly
20 keys, `e4` is one of them, and after playing `e4` the emitted FEN is
exactly `rnbqkbnr/pppppppp/8/8/4P3/8/PPPP1PPP/RNBQKBNR b KQkq e3 0 1`. -/
theorem scenarioA_initial_and_e4 :
    (createClient false).sanMoves.length = 20 ∧
    ((createClient false).sanMoves.lookup "e4").isSome = true ∧
    clientFEN (clientMove (createClient false) "e4" false).1 =
      "rnbqkbnr/pppppppp/8/8/4P3/8/PPPP1PPP/RNBQKBNR b KQkq e3 0 1" :=
  ⟨by decide, by decide, by decide⟩

/-! ## Claim C4 -/

/-- C4 (code evaluated at the failing input): in the loaded three-queen
position the moves a1→b2 and a3→b2 are both legal (b2 is square 9, and
both origin 0 and origin 16 list it), yet both render to the single SAN
key `Qab2` — the table maps `Qab2` to the a3 move and no table entry at
all refers to the a1 move, so a legal move is lost to the key collision
that the claim rules out. -/
theorem sanKey_collision_at_qqFEN :
    createClientFromFEN qqFEN false = some qqClient ∧
    (9 ∈ (findDests qqClient.validMoves 0).getD []) ∧
    (9 ∈ (findDests qqClient.validMoves 16).getD []) ∧
    (match cellAt qqClient.game.board 0 with
      | some p => sanKeys qqClient.game.board false qqClient.validMoves 0 9 p
      | none => []) = ["Qab2"] ∧
    (match cellAt qqClient.game.board 16 with
      | some p => sanKeys qqClient.game.board false qqClient.validMoves 16 9 p
      | none => []) = ["Qab2"] ∧
    qqClient.sanMoves.lookup "Qab2" = some { src := 16, dst := 9 } ∧
    qqClient.sanMoves.filter (fun e => e.2 = { src := 0, dst := 9 }) = [] :=
  ⟨by decide, by decide, by decide, by decide, by decide, by decide, by decide⟩

/-! ### Claim C1: move followed by undo -/

/-- Cell view of `List.set`. -/
lemma getD_set (l : List (Option Piece)) (i j : Nat) (x : Option Piece) :
    (l.set i x).getD j none = if i = j ∧ j < l.length then x else l.getD j none := by
  simp only [List.getD_eq_getElem?_getD, List.getElem?_set]
  by_cases h1 : i = j
  · subst h1
    by_cases h2 : i < l.length
    · rw [if_pos rfl, if_pos h2, if_pos ⟨rfl, h2⟩]
      rfl
    · rw [if_pos rfl, if_neg h2, if_neg (by tauto)]
      rw [List.getElem?_eq_none (by omega)]
  · rw [if_neg h1, if_neg (by tauto)]

/-- `cellAt` as a `getElem` for in-range indices. -/
lemma cellAt_getElem (b : Board) (j : Nat) (h : j < b.squares.length) :
    cellAt b j = b.squares[j] := by
  simp [cellAt, List.getD_eq_getElem?_getD, List.getElem?_eq_getElem h]

/-- Board-level core of claims C1 and C2: the undo closure of `Board.Move`
restores the square contents exactly, provided that a move carrying the
inferred castle flag is a standard castle (king from file e along its own
rank, rook-destination square empty beforehand); a simulated move also
restores `LastMovedPiece`. -/
theorem boardMove_undo_restores (b : Board) (src dst : Nat) (sim : Bool) (san : String)
    (b1 : Board) (ev : MoveEvent) (wf : b.squares.length = 64)
    (hmv : boardMove b src dst sim san = some (b1, ev))
    (hcastle : ev.castle = true →
      fileOf src = 4 ∧ rankOf src = rankOf dst ∧
      cellAt b (sqIdx (if fileOf dst = 6 then 5 else 3) (rankOf dst)) = none) :
    (undoMove b1 ev).1.squares = b.squares ∧
      (ev.simulate = true → (undoMove b1 ev).1.lastMoved = b.lastMoved) := by
  classical
  unfold boardMove at hmv
  by_cases hrange : src ≥ b.squares.length ∨ dst ≥ b.squares.length
  · rw [if_pos hrange] at hmv
    cases hmv
  · rw [if_neg hrange] at hmv
    push_neg at hrange
    obtain ⟨hsrcLt, hdstLt⟩ := hrange
    rcases hcell : cellAt b src with _ | p
    · rw [hcell] at hmv
      cases hmv
    · rw [hcell] at hmv
      rw [Option.some.injEq, Prod.mk.injEq] at hmv
      obtain ⟨hb1, hev⟩ := hmv
      -- name the intermediate boards and conditions of the move
      set dEnp : Bool :=
        decide (p.kind = PieceKind.pawn ∧ cellAt b dst = none ∧ fileOf dst ≠ fileOf src)
        with hdEnp
      set dCas : Bool :=
        decide (p.kind = PieceKind.king ∧ p.moveCount = 0 ∧
          (fileOf dst = 6 ∨ fileOf dst = 2)) with hdCas
      set cs := sqIdx (fileOf dst) (rankOf src) with hcs
      set rs := if fileOf dst = 6 then sqIdx 7 (rankOf dst) else sqIdx 0 (rankOf dst)
        with hrs
      set rd := if fileOf dst = 6 then sqIdx 5 (rankOf dst) else sqIdx 3 (rankOf dst)
        with hrd
      set sq1 := (b.squares.set dst (some p)).set src none with hsq1
      set sq2 := if dEnp = true then sq1.set cs none else sq1 with hsq2
      set rsP := sq2.getD rs none with hrsPdef
      set casB : Bool := (dCas && rsP.isSome) with hcasB
      -- field equations of the returned event and board
      have hevC : ev.castle = casB := by rw [← hev]
      have hevE : ev.enPassant = dEnp := by rw [← hev]
      have hevPiece : ev.piece = p := by rw [← hev]
      have hevPrev : ev.prevSquare = src := by rw [← hev]
      have hevPost : ev.postSquare = dst := by rw [← hev]
      have hevPmc : ev.prevMoveCount = p.moveCount := by rw [← hev]
      have hevSim : ev.simulate = sim := by rw [← hev]
      have hevUndone : ev.undone = false := by rw [← hev]
      have hevCap : ev.capturedPiece =
          (if dEnp = true then sq1.getD cs none else cellAt b dst) := by rw [← hev]
      have hevEps : ev.enPassantCaptureSquare =
          (if dEnp = true then some cs else none) := by rw [← hev]
      have hevRs : ev.rookSource = (if casB = true then some rs else none) := by
        rw [← hev]
      have hevRd : ev.rookDestination = (if casB = true then some rd else none) := by
        rw [← hev]
      have hb1sq : b1.squares =
          (if (¬sim = true) ∧ ¬(dEnp = true ∧ cs = dst) then
            (if casB = true then (sq2.set rd rsP).set rs none else sq2).set dst
              (some { kind := p.kind, side := p.side, moveCount := p.moveCount + 1,
                      pid := p.pid })
          else (if casB = true then (sq2.set rd rsP).set rs none else sq2)) := by
        rw [← hb1]
      have hb1lm : b1.lastMoved = (if sim = true then b.lastMoved else some p.pid) := by
        rw [← hb1]
      clear hb1 hev
      -- the `LastMovedPiece` half for simulated moves
      have hlm : ev.simulate = true → (undoMove b1 ev).1.lastMoved = b.lastMoved := by
        intro hs
        unfold undoMove
        rw [if_neg (by rw [hevUndone]; simp)]
        show (if ev.simulate = true then b1.lastMoved else none) = b.lastMoved
        rw [if_pos hs, hb1lm, if_pos (hevSim ▸ hs)]
      refine ⟨?_, hlm⟩
      unfold undoMove
      rw [if_neg (by rw [hevUndone]; simp)]
      show ((let s1 := b1.squares.set ev.prevSquare
               (some { ev.piece with moveCount := ev.prevMoveCount })
             let s2 := s1.set ev.postSquare ev.capturedPiece
             let s3 :=
               if ev.enPassant = true then
                 match ev.enPassantCaptureSquare with
                 | some csq => (s2.set csq ev.capturedPiece).set ev.postSquare none
                 | none => s2
               else s2
             if ev.castle = true then
               match ev.rookSource, ev.rookDestination with
               | some rsq, some rdq => (s3.set rsq (s3.getD rdq none)).set rdq none
               | _, _ => s3
             else s3) = b.squares)
      simp only [hevPrev, hevPiece, hevPmc, hevPost, hevCap, hevEps, hevE, hevC,
        hevRs, hevRd]
      have hpeta :
          ({ kind := p.kind, side := p.side, moveCount := p.moveCount, pid := p.pid } :
            Piece) = p := rfl
      simp only [hpeta]
      by_cases hcasT : casB = true
      · -- castle case
        have hdCasT : dCas = true := by
          have := hcasB ▸ hcasT
          exact (Bool.and_eq_true _ _ |>.mp this).1
        obtain ⟨hkindK, hmc0, hfg⟩ := of_decide_eq_true (hdCas ▸ hdCasT)
        have henpF : dEnp = false := by
          rw [hdEnp]
          simp [hkindK]
        have hcfg := hcastle (by rw [hevC]; exact hcasT)
        obtain ⟨hf4, hrr, hrdE0⟩ := hcfg
        have hrdeq : rd = sqIdx (if fileOf dst = 6 then 5 else 3) (rankOf dst) := by
          rw [hrd]
          split <;> simp_all
        have hrdE : cellAt b rd = none := by rw [hrdeq]; exact hrdE0
        have hsq2A : sq2 = sq1 := by rw [hsq2, henpF]; simp
        have hf4a : src % 8 = 4 := hf4
        have hfga : dst % 8 = 6 ∨ dst % 8 = 2 := hfg
        have hrra : src / 8 = dst / 8 := by
          have h := hrr
          unfold rankOf at h
          omega
        have hsd : src ≠ dst := by omega
        have hrsLt : rs < b.squares.length := by
          rw [wf, hrs]
          unfold sqIdx rankOf fileOf
          split <;> omega
        have hrdLt : rd < b.squares.length := by
          rw [wf, hrd]
          unfold sqIdx rankOf fileOf
          split <;> omega
        have hrs_src : rs ≠ src := by
          rw [hrs]
          unfold sqIdx rankOf fileOf
          split <;> omega
        have hrs_dst : rs ≠ dst := by
          rw [hrs]
          unfold sqIdx rankOf fileOf
          split <;> omega
        have hrd_src : rd ≠ src := by
          rw [hrd]
          unfold sqIdx rankOf fileOf
          split <;> omega
        have hrd_dst : rd ≠ dst := by
          rw [hrd]
          unfold sqIdx rankOf fileOf
          split <;> omega
        have hrd_rs : rd ≠ rs := by
          rw [hrd, hrs]
          unfold sqIdx rankOf fileOf
          split <;> omega
        have hrsPv : rsP = b.squares.getD rs none := by
          rw [hrsPdef, hsq2A, hsq1, getD_set, getD_set]
          rw [if_neg (by exact fun hc => (Ne.symm hrs_src) hc.1),
            if_neg (by exact fun hc => (Ne.symm hrs_dst) hc.1)]
        simp only [henpF, hcasT, Bool.false_eq_true, if_false, if_true, hsq2A]
        rw [hb1sq]
        simp only [henpF, hcasT, Bool.false_eq_true, false_and, not_false_eq_true,
          and_true, if_false, if_true, hsq2A]
        apply List.ext_getElem
        · split <;> simp [hsq1]
        · intro j hj1 hj2
          by_cases hrdj : rd = j
          · subst hrdj
            rw [List.getElem_set_self]
            rw [cellAt_getElem b rd hrdLt] at hrdE
            exact hrdE.symm
          · rw [List.getElem_set_ne hrdj]
            by_cases hrsj : rs = j
            · subst hrsj
              rw [List.getElem_set_self]
              rw [getD_set, if_neg (fun hc => (Ne.symm hrd_dst) hc.1),
                getD_set, if_neg (fun hc => (Ne.symm hrd_src) hc.1)]
              have hread : ((if (¬sim = true) then
                    ((sq1.set rd rsP).set rs none).set dst
                      (some { kind := p.kind, side := p.side,
                              moveCount := p.moveCount + 1, pid := p.pid })
                  else (sq1.set rd rsP).set rs none) : List (Option Piece)).getD rd none
                  = rsP := by
                split
                · rw [getD_set, if_neg (fun hc => (Ne.symm hrd_dst) hc.1),
                    getD_set, if_neg (fun hc => (Ne.symm hrd_rs) hc.1),
                    getD_set, if_pos ⟨rfl, by simpa [hsq1] using hrdLt⟩]
                · rw [getD_set, if_neg (fun hc => (Ne.symm hrd_rs) hc.1),
                    getD_set, if_pos ⟨rfl, by simpa [hsq1] using hrdLt⟩]
              rw [hread, hrsPv]
              rw [List.getD_eq_getElem?_getD, List.getElem?_eq_getElem hrsLt]
              rfl
            · rw [List.getElem_set_ne hrsj]
              by_cases hdj : dst = j
              · subst hdj
                rw [List.getElem_set_self]
                exact cellAt_getElem b dst hdstLt
              · rw [List.getElem_set_ne hdj]
                by_cases hsj : src = j
                · subst hsj
                  rw [List.getElem_set_self]
                  rw [cellAt_getElem b src hsrcLt] at hcell
                  exact hcell.symm
                · rw [List.getElem_set_ne hsj]
                  split <;>
                    simp only [hsq1, List.getElem_set_ne hdj, List.getElem_set_ne hsj,
                      List.getElem_set_ne hrsj, List.getElem_set_ne hrdj]
      · have hcasF : casB = false := by simpa using hcasT
        by_cases henpT : dEnp = true
        · have henp := of_decide_eq_true (hdEnp ▸ henpT)
          obtain ⟨hkindP, hdstE, hfile⟩ := henp
          have hsq2B : sq2 = sq1.set cs none := by rw [hsq2, henpT]; simp
          have hsd : src ≠ dst := by
            unfold fileOf at hfile
            omega
          by_cases hcsd : cs = dst
          · -- degenerate same-rank en passant
            have hcapv : sq1.getD dst none = some p := by
              rw [hsq1, getD_set, if_neg (fun hc => hsd hc.1), getD_set,
                if_pos ⟨rfl, hdstLt⟩]
            simp only [henpT, hcasF, Bool.false_eq_true, if_false, if_true, hsq2B,
              hcsd]
            rw [hb1sq]
            simp only [henpT, hcasF, Bool.false_eq_true, if_false, if_true,
              eq_self_iff_true, and_true, true_and, not_true_eq_false, and_false,
              hsq2B, hcsd]
            apply List.ext_getElem
            · simp [hsq1]
            · intro j hj1 hj2
              by_cases hdj : dst = j
              · subst hdj
                rw [List.getElem_set_self]
                rw [cellAt_getElem b dst hdstLt] at hdstE
                exact hdstE.symm
              · rw [List.getElem_set_ne hdj, List.getElem_set_ne hdj,
                  List.getElem_set_ne hdj]
                by_cases hsj : src = j
                · subst hsj
                  rw [List.getElem_set_self]
                  rw [cellAt_getElem b src hsrcLt] at hcell
                  exact hcell.symm
                · rw [List.getElem_set_ne hsj]
                  simp only [List.getElem_set_ne hdj, hsq1,
                    List.getElem_set_ne hsj]
          · -- ordinary en passant
            have hfa : dst % 8 ≠ src % 8 := hfile
            have hcss : cs ≠ src := by
              rw [hcs]
              unfold sqIdx rankOf fileOf
              omega
            have hcsLt : cs < b.squares.length := by
              rw [wf, hcs]
              unfold sqIdx rankOf fileOf
              omega
            have hcapv : sq1.getD cs none = b.squares.getD cs none := by
              rw [hsq1, getD_set, if_neg (by exact fun hc => (Ne.symm hcss) hc.1),
                getD_set, if_neg (by exact fun hc => (Ne.symm hcsd) hc.1)]
            simp only [henpT, hcasF, Bool.false_eq_true, if_false, if_true, hsq2B]
            rw [hb1sq]
            simp only [henpT, hcasF, Bool.false_eq_true, if_false, if_true,
              eq_self_iff_true, true_and, hcsd, not_false_eq_true, and_true, hsq2B]
            apply List.ext_getElem
            · split <;> simp [hsq1]
            · intro j hj1 hj2
              by_cases hdj : dst = j
              · subst hdj
                rw [List.getElem_set_self]
                rw [cellAt_getElem b dst hdstLt] at hdstE
                exact hdstE.symm
              · rw [List.getElem_set_ne hdj]
                by_cases hcsj : cs = j
                · subst hcsj
                  rw [List.getElem_set_self, hcapv]
                  rw [List.getD_eq_getElem?_getD, List.getElem?_eq_getElem (by omega)]
                  rfl
                · rw [List.getElem_set_ne hcsj, List.getElem_set_ne hdj]
                  by_cases hsj : src = j
                  · subst hsj
                    rw [List.getElem_set_self]
                    rw [cellAt_getElem b src hsrcLt] at hcell
                    exact hcell.symm
                  · rw [List.getElem_set_ne hsj]
                    split <;>
                      simp only [hsq1, List.getElem_set_ne hdj,
                        List.getElem_set_ne hsj, List.getElem_set_ne hcsj]
        · have henpF : dEnp = false := by simpa using henpT
          -- plain move
          simp only [henpF, hcasF, Bool.false_eq_true, if_false]
          rw [hb1sq]
          simp only [henpF, hcasF, Bool.false_eq_true, if_false, false_and,
            not_false_eq_true, and_true]
          have hsq2A : sq2 = sq1 := by rw [hsq2, henpF]; simp
          simp only [hsq2A]
          apply List.ext_getElem
          · split <;> simp [hsq1]
          · intro j hj1 hj2
            by_cases hdj : dst = j
            · subst hdj
              rw [List.getElem_set_self]
              exact cellAt_getElem b dst hdstLt
            · rw [List.getElem_set_ne hdj]
              by_cases hsj : src = j
              · subst hsj
                rw [List.getElem_set_self]
                rw [cellAt_getElem b src hsrcLt] at hcell
                exact hcell.symm
              · rw [List.getElem_set_ne hsj]
                split <;>
                  simp only [hsq1, List.getElem_set_ne hdj, List.getElem_set_ne hsj]

/-- The first component of `undoMove` ignores the event's `hashCode`. -/
lemma undoMove_fst_hashCode (b : Board) (ev : MoveEvent) (h : String) :
    (undoMove b { ev with hashCode := h }).1 = (undoMove b ev).1 := by
  unfold undoMove
  have hu2 : ({ ev with hashCode := h } : MoveEvent).undone = ev.undone := rfl
  by_cases hu : ev.undone = true
  · rw [if_pos (hu2.trans hu), if_pos hu]
  · rw [if_neg (fun hc => hu (hu2 ▸ hc)), if_neg hu]

/-- `Board.Move` stamps the requested `simulate` flag and a fresh (not yet
undone) event. -/
lemma boardMove_simulate_undone (b : Board) (src dst : Nat) (sim : Bool)
    (san : String) (b1 : Board) (ev : MoveEvent)
    (hmv : boardMove b src dst sim san = some (b1, ev)) :
    ev.simulate = sim ∧ ev.undone = false := by
  unfold boardMove at hmv
  by_cases hrange : src ≥ b.squares.length ∨ dst ≥ b.squares.length
  · rw [if_pos hrange] at hmv
    cases hmv
  · rw [if_neg hrange] at hmv
    rcases hcell : cellAt b src with _ | p
    · rw [hcell] at hmv
      cases hmv
    · rw [hcell] at hmv
      rw [Option.some.injEq, Prod.mk.injEq] at hmv
      obtain ⟨hb1, hev⟩ := hmv
      exact ⟨by rw [← hev], by rw [← hev]⟩

/-- Claim C1 (amended): a committed move applied through `Game.move` and
then undone through the returned undo handle restores the piece placement
(including every piece's `MoveCount`), the move and capture histories, and
sets `LastMovedPiece` to the piece of the new tail of the move history (or
null when the history becomes empty) — provided that a move carrying the
inferred castle flag is a standard castle: the king departs file e along
its own rank and the rook-destination square is empty beforehand. -/
theorem gameMove_undo_restores (g : Game) (src dst : Nat) (san : String)
    (g1 : Game) (ev : MoveEvent) (wf : g.board.squares.length = 64)
    (hmv : gameMove g src dst san = some (g1, ev))
    (hcastle : ev.castle = true →
      fileOf src = 4 ∧ rankOf src = rankOf dst ∧
      cellAt g.board (sqIdx (if fileOf dst = 6 then 5 else 3) (rankOf dst)) = none) :
    (gameUndo g1 ev).board.squares = g.board.squares ∧
      (gameUndo g1 ev).moveHistory = g.moveHistory ∧
      (gameUndo g1 ev).captureHistory = g.captureHistory ∧
      (gameUndo g1 ev).board.lastMoved =
        (match g.moveHistory.getLast? with
         | some e => some e.piece.pid
         | none => none) := by
  unfold gameMove at hmv
  rcases hbm : boardMove g.board src dst false san with _ | pr
  · rw [hbm] at hmv
    cases hmv
  · obtain ⟨b1, ev0⟩ := pr
    rw [hbm] at hmv
    rw [Option.some.injEq, Prod.mk.injEq] at hmv
    obtain ⟨hg1, hev⟩ := hmv
    obtain ⟨hsim0, hund0⟩ := boardMove_simulate_undone g.board src dst false san b1 ev0 hbm
    have hevSim : ev.simulate = false := by rw [← hev]; exact hsim0
    have hevUnd : ev.undone = false := by rw [← hev]; exact hund0
    have hevCas : ev.castle = ev0.castle := by rw [← hev]
    have hevCap : ev.capturedPiece = ev0.capturedPiece := by rw [← hev]
    have hrest := boardMove_undo_restores g.board src dst false san b1 ev0 wf hbm
      (by rw [← hevCas]; exact hcastle)
    have hundo1 : (undoMove b1 ev).1 = (undoMove b1 ev0).1 := by
      rw [← hev]
      exact undoMove_fst_hashCode b1 ev0 (getHashCode b1)
    have hb : g1.board = b1 := by rw [← hg1]
    have hmh : g1.moveHistory = g.moveHistory ++ [ev] := by rw [← hg1, ← hev]
    have hch : g1.captureHistory =
        (match ev0.capturedPiece with
         | some c => g.captureHistory ++ [c]
         | none => g.captureHistory) := by
      rw [← hg1]
    have hgu : gameUndo g1 ev =
        { g1 with
            board := { (undoMove g1.board ev).1 with lastMoved :=
              (match g1.moveHistory.dropLast.getLast? with
               | some e => some e.piece.pid
               | none => none) }
            moveHistory := g1.moveHistory.dropLast
            captureHistory :=
              if ev.capturedPiece ≠ none ∧ g1.captureHistory.length > 0 then
                g1.captureHistory.dropLast
              else g1.captureHistory } := by
      unfold gameUndo
      rw [if_neg (by rw [hevUnd]; simp), hevSim]
      simp only [Bool.false_eq_true, if_false]
    rw [hgu]
    have hmh2 : g1.moveHistory.dropLast = g.moveHistory := by
      rw [hmh]
      simp
    refine ⟨?_, ?_, ?_, ?_⟩
    · show (undoMove g1.board ev).1.squares = g.board.squares
      rw [hb, hundo1]
      exact hrest.1
    · exact hmh2
    · show (if ev.capturedPiece ≠ none ∧ g1.captureHistory.length > 0 then
             g1.captureHistory.dropLast
           else g1.captureHistory) = g.captureHistory
      rcases hc : ev0.capturedPiece with _ | c
      · rw [if_neg (by rw [hevCap, hc]; simp)]
        rw [hch, hc]
      · have hch2 : g1.captureHistory = g.captureHistory ++ [c] := by rw [hch, hc]
        rw [if_pos ⟨by rw [hevCap, hc]; simp, by rw [hch2]; simp⟩, hch2]
        simp
    · show (match g1.moveHistory.dropLast.getLast? with
            | some e => some e.piece.pid
            | none => none) =
          (match g.moveHistory.getLast? with
           | some e => some e.piece.pid
           | none => none)
      rw [hmh2]

def c1xClient : ClientState :=
  (createClientFromFEN "4k3/8/8/8/8/8/8/4KB1R w K - 0 1" false).getD (createClient false)

def c1xBoard : Board := c1xClient.game.board

def c1xRes : Board × MoveEvent :=
  (boardMove c1xBoard 4 6 false "O-O").getD (c1xBoard, hashOnlyEvent "")

/-- Claim C1, counterexample to the unamended statement: on the position
`4k3/8/8/8/8/8/8/4KB1R w K - 0 1`, `Board.Move` from e1 to g1 is inferred
to be a castle and relocates the h1 rook onto the occupied square f1; the
undo handle then empties f1, so the bishop that stood there is lost and
the placement is not restored. -/
theorem castle_undo_drops_bishop :
    (boardMove c1xBoard 4 6 false "O-O").isSome = true ∧
      cellAt c1xBoard 5 ≠ none ∧
      cellAt (undoMove c1xRes.1 c1xRes.2).1 5 = none ∧
      (undoMove c1xRes.1 c1xRes.2).1.squares ≠ c1xBoard.squares := by
  refine ⟨by decide, by decide, by decide, by decide⟩

def c1wGame : Game := (createClient false).game

def c1wRes : Game × MoveEvent :=
  (gameMove c1wGame 12 28 "e4").getD (c1wGame, hashOnlyEvent "")

/-- Claim C1, witness: the double pawn push e2-e4 from the initial
position, undone, restores the initial placement. -/
theorem gameMove_undo_restores_witness :
    c1wGame.board.squares.length = 64 ∧
      (gameUndo c1wRes.1 c1wRes.2).board.squares = c1wGame.board.squares :=
  ⟨by decide,
    (gameMove_undo_restores c1wGame 12 28 "e4" c1wRes.1 c1wRes.2
      (by decide) (by decide) (by decide)).1⟩

/-! ### Claim C7: initial pawn pushes -/

lemma slideLoop_zero (b : Board) (pc : Piece) (dir : Nb) (os : Option Nat) :
    slideLoop b pc dir os 0 = [] := by
  cases os <;> rfl

lemma slideLoop_succ_empty (b : Board) (pc : Piece) (dir : Nb) (cur fuel : Nat)
    (hc : cellAt b cur = none) :
    slideLoop b pc dir (some cur) (fuel + 1) =
      cur :: slideLoop b pc dir (getNeighborSquare b cur dir) fuel := by
  rw [slideLoop, hc]

lemma slideLoop_succ_pawn (b : Board) (pc : Piece) (dir : Nb) (cur fuel : Nat)
    (q : Piece) (hc : cellAt b cur = some q) (hk : pc.kind = .pawn) :
    slideLoop b pc dir (some cur) (fuel + 1) = [] := by
  rw [slideLoop, hc]
  show (if pc.kind = .pawn ∨ q.side = pc.side then [] else [cur]) = []
  rw [if_pos (Or.inl hk)]

lemma rankOf_ne_eight {i : Nat} (h : i + 8 < 64) : rankOf i ≠ 8 := by
  unfold rankOf
  omega

lemma gns_above (b : Board) (wf : b.squares.length = 64) (i : Nat) (h : i + 8 < 64) :
    getNeighborSquare b i .above = some (i + 8) := by
  simp [getNeighborSquare, Nb.delta, wf, rankOf_ne_eight h]
  omega

lemma gns_below (b : Board) (wf : b.squares.length = 64) (i : Nat)
    (h8 : 8 ≤ i) (h64 : i < 72) :
    getNeighborSquare b i .below = some (i - 8) := by
  have h1 : rankOf i ≠ 1 := by
    unfold rankOf
    omega
  simp [getNeighborSquare, Nb.delta, wf, h1]
  omega

lemma gns_diag_file (b : Board) (i s : Nat) (d : Nb)
    (hd : d = .aboveLeft ∨ d = .aboveRight ∨ d = .belowLeft ∨ d = .belowRight)
    (h : getNeighborSquare b i d = some s) : fileOf s ≠ fileOf i := by
  rcases hd with hd | hd | hd | hd <;>
    subst hd <;>
    simp [getNeighborSquare, Nb.delta] at h <;>
    (unfold fileOf rankOf at *
     omega)

lemma pawnCaps_mem (b : Board) (pc : Piece) (o s : Nat) :
    s ∈ pawnCaps b pc o ↔
      ((getNeighborSquare b o
          (if pc.side = .white then Nb.aboveLeft else Nb.belowLeft) = some s ∨
        getNeighborSquare b o
          (if pc.side = .white then Nb.aboveRight else Nb.belowRight) = some s) ∧
       ∃ q, cellAt b s = some q ∧ q.side ≠ pc.side) := by
  unfold pawnCaps
  simp only [List.mem_filterMap, List.mem_cons, List.mem_singleton,
    List.not_mem_nil, or_false]
  constructor
  · rintro ⟨a, ha, hfa⟩
    rcases a with _ | sq
    · cases hfa
    · have hfa1 : (match cellAt b sq with
          | some q => if q.side ≠ pc.side then some sq else none
          | none => none) = some s := hfa
      rcases hq : cellAt b sq with _ | q
      · rw [hq] at hfa1
        cases hfa1
      · rw [hq] at hfa1
        have hfa2 : (if q.side ≠ pc.side then some sq else none) = some s := hfa1
        by_cases hside : q.side ≠ pc.side
        · rw [if_pos hside] at hfa2
          obtain rfl : sq = s := Option.some.inj hfa2
          rcases ha with ha | ha
          · exact ⟨Or.inl ha.symm, q, hq, hside⟩
          · exact ⟨Or.inr ha.symm, q, hq, hside⟩
        · rw [if_neg hside] at hfa2
          cases hfa2
  · rintro ⟨hor, q, hq, hside⟩
    refine ⟨some s, ?_, by simp [hq, hside]⟩
    rcases hor with h | h
    · exact Or.inl h.symm
    · exact Or.inr h.symm

lemma pawnCaps_file (b : Board) (pc : Piece) (o s : Nat)
    (h : s ∈ pawnCaps b pc o) : fileOf s ≠ fileOf o := by
  rcases (pawnCaps_mem b pc o s).mp h with ⟨hor, -⟩
  rcases hor with h | h
  · exact gns_diag_file b o s _ (by split <;> simp) h
  · exact gns_diag_file b o s _ (by split <;> simp) h

lemma pawnCaps_occ (b : Board) (pc : Piece) (o s : Nat) (h : s ∈ pawnCaps b pc o) :
    cellAt b s ≠ none := by
  rcases (pawnCaps_mem b pc o s).mp h with ⟨-, q, hq, -⟩
  rw [hq]
  simp

lemma pawn_pushes_core (b : Board) (o : Nat) (p : Piece) (n1 n2 : Nat)
    (hcell : cellAt b o = some p) (hk : p.kind = .pawn) (hmc : p.moveCount = 0)
    (hn1 : getNeighborSquare b o (forwardDir p.side) = some n1)
    (hn2 : getNeighborSquare b n1 (forwardDir p.side) = some n2)
    (hstart : rankOf o = 7 ∨ rankOf o = 2)
    (hrnk : rankOf o ≠ (if p.side = .black then 4 else 5))
    (hf1 : fileOf n1 = fileOf o) (hf2 : fileOf n2 = fileOf o)
    (h12 : n1 ≠ n2) :
    ∃ L, pieceDests b o = some L ∧
      (cellAt b n1 = none → cellAt b n2 = none → n1 ∈ L ∧ n2 ∈ L) ∧
      (cellAt b n1 = none → cellAt b n2 ≠ none → n1 ∈ L ∧ n2 ∉ L) ∧
      (cellAt b n1 ≠ none → n1 ∉ L ∧ n2 ∉ L) ∧
      (∀ s, fileOf s ≠ fileOf o → (s ∈ L ↔ s ∈ pawnCaps b p o)) := by
  have hPD : pieceDests b o = some (pawnSpecial b p o (baseDests b p o)) := by
    unfold pieceDests
    rw [hcell]
    simp only [hk]
  have hbase : baseDests b p o =
      slideLoop b p (forwardDir p.side) (some n1) 1 := by
    unfold baseDests
    simp only [hk]
    simp [dirMoves, hn1]
  rcases hq1 : cellAt b n1 with _ | q1
  · -- near square empty: the single push is generated
    have hds : baseDests b p o = [n1] := by
      rw [hbase]
      calc slideLoop b p (forwardDir p.side) (some n1) 1
          = n1 :: slideLoop b p (forwardDir p.side)
              (getNeighborSquare b n1 (forwardDir p.side)) 0 :=
            slideLoop_succ_empty b p (forwardDir p.side) n1 0 hq1
        _ = [n1] := by rw [hn2, slideLoop_zero]
    rcases hq2 : cellAt b n2 with _ | q2
    · -- far square empty as well: the double push is appended
      have hL : pieceDests b o = some (n1 :: (pawnCaps b p o ++ [n2])) := by
        rw [hPD, hds]
        unfold pawnSpecial pawnDouble
        simp [hmc, hq1, hq2, hn2, hrnk, hstart]
      refine ⟨_, hL, ?_, ?_, ?_, ?_⟩
      · intro _ _
        constructor
        · exact List.mem_cons_self _ _
        · exact List.mem_cons_of_mem _ (List.mem_append_right _ (List.mem_singleton.mpr rfl))
      · intro _ hc2
        exact absurd rfl hc2
      · intro hc1
        exact absurd rfl hc1
      · intro s hs
        constructor
        · intro hmem
          rcases List.mem_cons.mp hmem with h | h
          · exact absurd (h ▸ hf1) hs
          · rcases List.mem_append.mp h with h | h
            · exact h
            · exact absurd ((List.mem_singleton.mp h) ▸ hf2) hs
        · intro hmem
          exact List.mem_cons_of_mem _ (List.mem_append_left _ hmem)
    · -- far square occupied: only the single push
      have hL : pieceDests b o = some (n1 :: pawnCaps b p o) := by
        rw [hPD, hds]
        unfold pawnSpecial pawnDouble
        simp [hmc, hq1, hq2, hn2, hrnk, hstart]
      refine ⟨_, hL, ?_, ?_, ?_, ?_⟩
      · intro _ hc2
        cases hc2
      · intro _ _
        refine ⟨List.mem_cons_self _ _, ?_⟩
        intro hmem
        rcases List.mem_cons.mp hmem with h | h
        · exact h12.symm h
        · exact pawnCaps_file b p o n2 h hf2
      · intro hc1
        exact absurd rfl hc1
      · intro s hs
        constructor
        · intro hmem
          rcases List.mem_cons.mp hmem with h | h
          · exact absurd (h ▸ hf1) hs
          · exact h
        · exact List.mem_cons_of_mem _
  · -- near square occupied: neither push
    have hds : baseDests b p o = [] := by
      rw [hbase]
      exact slideLoop_succ_pawn b p (forwardDir p.side) n1 0 q1 hq1 hk
    have hL : pieceDests b o = some (pawnCaps b p o) := by
      rw [hPD, hds]
      unfold pawnSpecial pawnDouble
      simp only [List.nil_append]
      rcases hcE : pawnCaps b p o with _ | ⟨c, cs⟩
      · simp [hrnk]
      · have hocc : cellAt b c ≠ none :=
          pawnCaps_occ b p o c (by rw [hcE]; exact List.mem_cons_self c cs)
        simp [hmc, hocc, hrnk]
    refine ⟨_, hL, ?_, ?_, ?_, ?_⟩
    · intro hc1 _
      cases hc1
    · intro hc1 _
      cases hc1
    · intro _
      exact ⟨fun h => pawnCaps_file b p o n1 h hf1,
             fun h => pawnCaps_file b p o n2 h hf2⟩
    · intro s _
      exact Iff.rfl

/-- Claim C7: a pawn on its starting rank (rank 2 for White, rank 7 for
Black) with `MoveCount` 0 gets both the one- and two-square forward pushes
when both squares ahead are empty, only the single push when the far
square is occupied, and neither push when the near square is occupied;
the diagonal-capture sublist is unaffected (off the pawn's file, the
destinations are exactly `pawnCaps`). -/
theorem pawn_start_rank_pushes (b : Board) (o : Nat) (p : Piece) (n1 n2 : Nat)
    (wf : b.squares.length = 64) (hcell : cellAt b o = some p)
    (hk : p.kind = .pawn) (hmc : p.moveCount = 0)
    (hr : (p.side = .white ∧ rankOf o = 2) ∨ (p.side = .black ∧ rankOf o = 7))
    (hn1 : getNeighborSquare b o (forwardDir p.side) = some n1)
    (hn2 : getNeighborSquare b n1 (forwardDir p.side) = some n2) :
    ∃ L, pieceDests b o = some L ∧
      (cellAt b n1 = none → cellAt b n2 = none → n1 ∈ L ∧ n2 ∈ L) ∧
      (cellAt b n1 = none → cellAt b n2 ≠ none → n1 ∈ L ∧ n2 ∉ L) ∧
      (cellAt b n1 ≠ none → n1 ∉ L ∧ n2 ∉ L) ∧
      (∀ s, fileOf s ≠ fileOf o → (s ∈ L ↔ s ∈ pawnCaps b p o)) := by
  rcases hr with ⟨hw, hro⟩ | ⟨hbk, hro⟩
  · have hob : 8 ≤ o ∧ o ≤ 15 := by
      unfold rankOf at hro
      omega
    have hfwd : forwardDir p.side = .above := by
      simp [forwardDir, hw]
    rw [hfwd] at hn1 hn2
    rw [gns_above b wf o (by omega)] at hn1
    obtain rfl : n1 = o + 8 := (Option.some.inj hn1).symm
    rw [gns_above b wf (o + 8) (by omega)] at hn2
    obtain rfl : n2 = o + 8 + 8 := (Option.some.inj hn2).symm
    refine pawn_pushes_core b o p (o + 8) (o + 8 + 8) hcell hk hmc ?_ ?_
      (Or.inr hro) ?_ ?_ ?_ (by omega)
    · rw [hfwd]
      exact gns_above b wf o (by omega)
    · rw [hfwd]
      exact gns_above b wf (o + 8) (by omega)
    · rw [hw]
      simp
      unfold rankOf at hro ⊢
      omega
    · unfold fileOf
      omega
    · unfold fileOf
      omega
  · have hob : 48 ≤ o ∧ o ≤ 55 := by
      unfold rankOf at hro
      omega
    have hfwd : forwardDir p.side = .below := by
      simp [forwardDir, hbk]
    rw [hfwd] at hn1 hn2
    rw [gns_below b wf o (by omega) (by omega)] at hn1
    obtain rfl : n1 = o - 8 := (Option.some.inj hn1).symm
    rw [gns_below b wf (o - 8) (by omega) (by omega)] at hn2
    obtain rfl : n2 = o - 8 - 8 := (Option.some.inj hn2).symm
    refine pawn_pushes_core b o p (o - 8) (o - 8 - 8) hcell hk hmc ?_ ?_
      (Or.inl hro) ?_ ?_ ?_ (by omega)
    · rw [hfwd]
      exact gns_below b wf o (by omega) (by omega)
    · rw [hfwd]
      exact gns_below b wf (o - 8) (by omega) (by omega)
    · rw [hbk]
      simp
      unfold rankOf at hro ⊢
      omega
    · unfold fileOf
      omega
    · unfold fileOf
      omega

/-- Claim C7, witness: the e2 pawn of the initial position. -/
theorem pawn_start_rank_pushes_witness :
    ∃ L, pieceDests (createClient false).game.board 12 = some L ∧
      (cellAt (createClient false).game.board 20 = none →
        cellAt (createClient false).game.board 28 = none → 20 ∈ L ∧ 28 ∈ L) ∧
      (cellAt (createClient false).game.board 20 = none →
        cellAt (createClient false).game.board 28 ≠ none → 20 ∈ L ∧ 28 ∉ L) ∧
      (cellAt (createClient false).game.board 20 ≠ none → 20 ∉ L ∧ 28 ∉ L) ∧
      (∀ s, fileOf s ≠ fileOf 12 →
        (s ∈ L ↔ s ∈ pawnCaps (createClient false).game.board
          { kind := .pawn, side := .white, moveCount := 0, pid := 12 } 12)) :=
  pawn_start_rank_pushes (createClient false).game.board 12
    { kind := .pawn, side := .white, moveCount := 0, pid := 12 } 20 28
    (by decide) (by decide) rfl rfl (Or.inl ⟨rfl, by decide⟩)
    (by decide) (by decide)

/-! ### Claim C6: en passant availability -/

lemma gns_vert_file (b : Board) (i s : Nat) (d : Nb)
    (hd : d = .above ∨ d = .below)
    (h : getNeighborSquare b i d = some s) : fileOf s = fileOf i := by
  rcases hd with hd | hd <;>
    subst hd <;>
    simp [getNeighborSquare, Nb.delta] at h <;>
    (unfold fileOf rankOf at *
     omega)

lemma pawn_base_sub (b : Board) (p : Piece) (o x : Nat) (hk : p.kind = .pawn)
    (hx : x ∈ baseDests b p o) :
    getNeighborSquare b o (forwardDir p.side) = some x := by
  unfold baseDests at hx
  simp only [hk] at hx
  simp [dirMoves] at hx
  rcases hg : getNeighborSquare b o (forwardDir p.side) with _ | cur
  · rw [hg] at hx
    rw [show slideLoop b p (forwardDir p.side) none 1 = [] from rfl] at hx
    cases hx
  · rw [hg] at hx
    rcases hc : cellAt b cur with _ | q
    · have h1 : slideLoop b p (forwardDir p.side) (some cur) 1 =
          cur :: slideLoop b p (forwardDir p.side)
            (getNeighborSquare b cur (forwardDir p.side)) 0 :=
        slideLoop_succ_empty b p (forwardDir p.side) cur 0 hc
      rw [h1, slideLoop_zero] at hx
      obtain rfl := List.mem_singleton.mp hx
      rfl
    · have h1 : slideLoop b p (forwardDir p.side) (some cur) 1 = [] :=
        slideLoop_succ_pawn b p (forwardDir p.side) cur 0 q hc hk
      rw [h1] at hx
      cases hx

lemma pawnDouble_mem (b : Board) (pc : Piece) (o : Nat) (ds1 : List Nat) (x : Nat)
    (hx : x ∈ pawnDouble b pc o ds1) :
    x ∈ ds1 ∨ ∃ ff, ds1.head? = some ff ∧ cellAt b ff = none ∧
      getNeighborSquare b ff (forwardDir pc.side) = some x := by
  unfold pawnDouble at hx
  by_cases h1 : pc.moveCount = 0 ∧ ds1.length > 0
  · rw [if_pos h1] at hx
    rcases hh : ds1.head? with _ | ff
    · rw [hh] at hx
      exact Or.inl hx
    · rw [hh] at hx
      have hx2 : x ∈ (if cellAt b ff = none ∧ (rankOf o = 7 ∨ rankOf o = 2) then
          (match getNeighborSquare b ff (forwardDir pc.side) with
           | some sf => if cellAt b sf = none then ds1 ++ [sf] else ds1
           | none => ds1)
        else ds1) := hx
      by_cases h2 : cellAt b ff = none ∧ (rankOf o = 7 ∨ rankOf o = 2)
      · rw [if_pos h2] at hx2
        rcases hg : getNeighborSquare b ff (forwardDir pc.side) with _ | sf
        · rw [hg] at hx2
          exact Or.inl hx2
        · rw [hg] at hx2
          have hx3 : x ∈ (if cellAt b sf = none then ds1 ++ [sf] else ds1) := hx2
          by_cases h3 : cellAt b sf = none
          · rw [if_pos h3] at hx3
            rcases List.mem_append.mp hx3 with h | h
            · exact Or.inl h
            · obtain rfl := List.mem_singleton.mp h
              exact Or.inr ⟨ff, rfl, h2.1, hg⟩
          · rw [if_neg h3] at hx3
            exact Or.inl hx3
      · rw [if_neg h2] at hx2
        exact Or.inl hx2
  · rw [if_neg h1] at hx
    exact Or.inl hx

lemma pawnEps_mem (b : Board) (pc : Piece) (o t : Nat) :
    t ∈ pawnEps b pc o ↔
      ∃ adjSq ap,
        (getNeighborSquare b o .left = some adjSq ∨
         getNeighborSquare b o .right = some adjSq) ∧
        cellAt b adjSq = some ap ∧ ap.kind = .pawn ∧ ap.side ≠ pc.side ∧
        ap.moveCount = 1 ∧ b.lastMoved = some ap.pid ∧
        getNeighborSquare b adjSq
          (if ap.side = .black then Nb.above else Nb.below) = some t := by
  unfold pawnEps
  simp only [List.mem_filterMap, List.mem_cons, List.mem_singleton,
    List.not_mem_nil, or_false]
  constructor
  · rintro ⟨a, ha, hfa⟩
    rcases a with _ | adjSq
    · cases hfa
    · have hfa1 : (match cellAt b adjSq with
          | none => none
          | some ap =>
            if ap.kind = .pawn ∧ ap.side ≠ pc.side ∧ ap.moveCount = 1 ∧
                b.lastMoved = some ap.pid then
              getNeighborSquare b adjSq
                (if ap.side = .black then Nb.above else Nb.below)
            else none) = some t := hfa
      rcases hq : cellAt b adjSq with _ | ap
      · rw [hq] at hfa1
        cases hfa1
      · rw [hq] at hfa1
        have hfa2 : (if ap.kind = .pawn ∧ ap.side ≠ pc.side ∧ ap.moveCount = 1 ∧
              b.lastMoved = some ap.pid then
            getNeighborSquare b adjSq
              (if ap.side = .black then Nb.above else Nb.below)
          else none) = some t := hfa1
        by_cases hcond : ap.kind = .pawn ∧ ap.side ≠ pc.side ∧ ap.moveCount = 1 ∧
            b.lastMoved = some ap.pid
        · rw [if_pos hcond] at hfa2
          obtain ⟨hk2, hs2, hm2, hl2⟩ := hcond
          refine ⟨adjSq, ap, ?_, hq, hk2, hs2, hm2, hl2, hfa2⟩
          rcases ha with ha | ha
          · exact Or.inl ha.symm
          · exact Or.inr ha.symm
        · rw [if_neg hcond] at hfa2
          cases hfa2
  · rintro ⟨adjSq, ap, hor, hq, hk2, hs2, hm2, hl2, hg⟩
    refine ⟨some adjSq, ?_, by simp [hq, hk2, hs2, hm2, hl2, hg]⟩
    rcases hor with h | h
    · exact Or.inl h.symm
    · exact Or.inr h.symm

/-- Claim C6: for an empty square off the pawn's file, the generator
includes it if and only if the pawn stands on rank 5 (White) or rank 4
(Black) and it is the square behind a horizontally adjacent enemy pawn
whose `MoveCount` is 1 and which is the board's `LastMovedPiece` — so en
passant is available exactly on the move after the enemy pawn's
two-square first push. -/
theorem pawn_enpassant_iff (b : Board) (o t : Nat) (p : Piece) (L : List Nat)
    (hcell : cellAt b o = some p) (hk : p.kind = .pawn)
    (hPDL : pieceDests b o = some L)
    (htE : cellAt b t = none) (htF : fileOf t ≠ fileOf o) :
    t ∈ L ↔
      rankOf o = (if p.side = .black then 4 else 5) ∧
      ∃ adjSq ap,
        (getNeighborSquare b o .left = some adjSq ∨
         getNeighborSquare b o .right = some adjSq) ∧
        cellAt b adjSq = some ap ∧ ap.kind = .pawn ∧ ap.side ≠ p.side ∧
        ap.moveCount = 1 ∧ b.lastMoved = some ap.pid ∧
        getNeighborSquare b adjSq
          (if ap.side = .black then Nb.above else Nb.below) = some t := by
  have hPD : pieceDests b o = some (pawnSpecial b p o (baseDests b p o)) := by
    unfold pieceDests
    rw [hcell]
    simp only [hk]
  rw [hPDL] at hPD
  obtain rfl : L = pawnSpecial b p o (baseDests b p o) := Option.some.inj hPD
  have hno2 : t ∉ pawnDouble b p o (baseDests b p o ++ pawnCaps b p o) := by
    intro hm
    rcases pawnDouble_mem b p o _ t hm with h | ⟨ff, hh, hfe, hg⟩
    · rcases List.mem_append.mp h with h | h
      · exact htF (gns_vert_file b o t _
          (by unfold forwardDir; split <;> simp) (pawn_base_sub b p o t hk h))
      · exact (pawnCaps_occ b p o t h) htE
    · have hffm : ff ∈ baseDests b p o ++ pawnCaps b p o :=
        List.mem_of_mem_head? (by simp [hh])
      rcases List.mem_append.mp hffm with h | h
      · have hf1 : fileOf ff = fileOf o :=
          gns_vert_file b o ff _ (by unfold forwardDir; split <;> simp)
            (pawn_base_sub b p o ff hk h)
        have hf2 : fileOf t = fileOf ff :=
          gns_vert_file b ff t _ (by unfold forwardDir; split <;> simp) hg
        exact htF (hf2.trans hf1)
      · exact (pawnCaps_occ b p o ff h) hfe
  show t ∈ (if rankOf o ≠ (if p.side = .black then 4 else 5) then
      pawnDouble b p o (baseDests b p o ++ pawnCaps b p o)
    else pawnDouble b p o (baseDests b p o ++ pawnCaps b p o) ++ pawnEps b p o) ↔ _
  by_cases hr : rankOf o = (if p.side = .black then 4 else 5)
  · rw [if_neg (not_not_intro hr)]
    constructor
    · intro hm
      rcases List.mem_append.mp hm with hm | hm
      · exact absurd hm hno2
      · exact ⟨hr, (pawnEps_mem b p o t).mp hm⟩
    · rintro ⟨-, hex⟩
      exact List.mem_append_right _ ((pawnEps_mem b p o t).mpr hex)
  · rw [if_pos hr]
    constructor
    · intro hm
      exact absurd hm hno2
    · rintro ⟨hcontra, -⟩
      exact absurd hcontra hr

def c6b1 : Board :=
  ((boardMove (createClient false).game.board 12 28 false "").getD
    ((createClient false).game.board, hashOnlyEvent "")).1

def c6b2 : Board := ((boardMove c6b1 28 36 false "").getD (c6b1, hashOnlyEvent "")).1

def c6b3 : Board := ((boardMove c6b2 51 35 false "").getD (c6b2, hashOnlyEvent "")).1

def c6p : Piece := { kind := .pawn, side := .white, moveCount := 2, pid := 12 }

/-- Claim C6, witness: after e2-e4, e4-e5, d7-d5, the white e5 pawn can
capture en passant on d6 (square 43). -/
theorem pawn_enpassant_iff_witness :
    cellAt c6b3 36 = some c6p ∧
    (43 ∈ (pieceDests c6b3 36).getD [] ↔
      rankOf 36 = (if c6p.side = .black then 4 else 5) ∧
      ∃ adjSq ap,
        (getNeighborSquare c6b3 36 .left = some adjSq ∨
         getNeighborSquare c6b3 36 .right = some adjSq) ∧
        cellAt c6b3 adjSq = some ap ∧ ap.kind = .pawn ∧ ap.side ≠ c6p.side ∧
        ap.moveCount = 1 ∧ c6b3.lastMoved = some ap.pid ∧
        getNeighborSquare c6b3 adjSq
          (if ap.side = .black then Nb.above else Nb.below) = some 43) :=
  ⟨by decide,
    pawn_enpassant_iff c6b3 36 43 c6p ((pieceDests c6b3 36).getD [])
      (by decide) rfl (by decide) (by decide) (by decide)⟩

/-! ### Claim C5: FEN round-trip -/

def rtFEN : String := "4k3/8/8/8/8/8/8/5K1R w - - 0 1"

def rtClient : ClientState := (createClientFromFEN rtFEN false).getD (createClient false)

/-- Claim C5: the loader accepts `4k3/8/8/8/8/8/8/5K1R w - - 0 1`, but the
initial legal-move computation simulates the king from f1 onto g1; with the
king's `MoveCount` 0 and destination file g, `Board.Move` infers a castle
and relocates the h1 rook onto f1, and the undo closure then copies the
restored king to h1 and empties f1.  `FEN()` immediately after loading
returns `4k3/8/8/8/8/8/8/7K w - - 0 1`: the rook is gone and the king has
moved, so the emitted string differs from the input. -/
theorem fen_roundtrip_corrupted :
    (createClientFromFEN rtFEN false).isSome = true ∧
      clientFEN rtClient = "4k3/8/8/8/8/8/8/7K w - - 0 1" ∧
      clientFEN rtClient ≠ rtFEN := by
  refine ⟨by decide, by decide, by decide⟩

end Chess
